import Mathlib

/-!
Verification of the dicom-anonymizer repository against its natural-language
specification.  Go code is shallowly embedded: pure functions become Lean
functions, stateful code threads explicit state records, Go `int` is modelled
as `Int` (no arithmetic in scope approaches 64-bit overflow), Go maps are
modelled as association lists with overwrite-on-insert, and fallible
operations return `Option`.  Cryptographic digests (SHA-256, MD5) are kept as
function parameters: the program treats digest strings opaquely, so every
property proved here holds for every digest function, and concrete runs
instantiate the parameter with a transparent stand-in.
-/

set_option linter.unusedVariables false
set_option maxRecDepth 4000

namespace DicomAnon

/-! ## String helpers (Go strings / unicode packages, restricted to the
program's use).  `Char.toUpper`/`Char.toLower` mirror the ASCII action of
Go's `strings.ToUpper`/`ToLower`; the identity data handled by the program
is ASCII. -/

/-- Whitespace recognised by Go's `unicode.IsSpace` in the ASCII + Latin-1 range. -/
def isGoSpace (c : Char) : Bool :=
  c = ' ' || c = '\t' || c = '\n' || c = '\x0b' || c = '\x0c' || c = '\r' ||
  c = '\x85' || c = '\xa0'

/-- Go `strings.TrimSpace`. -/
def trimSpace (s : String) : String :=
  String.mk (((s.data.dropWhile isGoSpace).reverse.dropWhile isGoSpace).reverse)

/-- Whitespace matched by `\s` in Go's regexp package (RE2): `[\t\n\f\r ]`. -/
def isRegexSpace (c : Char) : Bool :=
  c = ' ' || c = '\t' || c = '\n' || c = '\x0c' || c = '\r'

/-- A character kept by the `nonAlphaRegex` replacement in `hash.go`:
the regex deletes everything outside `A`–`Z` and `\s`. -/
def keepNameChar (c : Char) : Bool :=
  ('A' ≤ c && c ≤ 'Z') || isRegexSpace c

/-- Go `strings.Fields` on the character classes that survive the name
filter (letters and ASCII whitespace): maximal runs of non-space characters. -/
def fieldsAux : List Char → List Char → List String
  | acc, [] => if acc.isEmpty then [] else [String.mk acc.reverse]
  | acc, c :: rest =>
      if isRegexSpace c then
        if acc.isEmpty then fieldsAux [] rest
        else String.mk acc.reverse :: fieldsAux [] rest
      else fieldsAux (c :: acc) rest

def goFields (l : List Char) : List String := fieldsAux [] l

/-- Byte-lexicographic string order, as Go's `sort.Strings` compares;
UTF-8 byte order agrees with code-point order. -/
def strLeb (a b : String) : Bool :=
  let rec go : List Char → List Char → Bool
    | [], _ => true
    | _ :: _, [] => false
    | x :: xs, y :: ys => if x < y then true else if x = y then go xs ys else false
  go a.data b.data

/-- Insertion sort by `strLeb`, modelling Go `sort.Strings`. -/
def sortStrings (l : List String) : List String :=
  let rec ins (x : String) : List String → List String
    | [] => [x]
    | y :: ys => if strLeb x y then x :: y :: ys else y :: ins x ys
  match l with
  | [] => []
  | x :: xs => ins x (sortStrings xs)

/-! ## identity/hash.go -/

/-- `NormalizeName` (hash.go): uppercase, replace `^` and `,` with spaces,
strip characters outside `A`–`Z` and whitespace, split into fields, sort,
concatenate. -/
def NormalizeName (name : String) : String :=
  if name = "" then ""
  else
    let up := name.data.map Char.toUpper
    let sep := up.map (fun c => if c = '^' || c = ',' then ' ' else c)
    let kept := sep.filter keepNameChar
    let parts := sortStrings (goFields kept)
    parts.foldl (fun acc p => acc ++ p) ""

/-- `identityString` as built inside `CreateIdentityHash` (hash.go): the
SHA-256 preimage `normalized|dob|salt`.  The digest itself is a parameter
of the mapper operations. -/
def identityString (name dob salt : String) : String :=
  NormalizeName name ++ "|" ++ trimSpace dob ++ "|" ++ salt

/-! ## identity/validation.go -/

def PlaceholderNames : List String :=
  ["", "unknown", "no name", "noname", "anonymous", "test", "patient"]

def PlaceholderDOBs : List String :=
  ["", "00000000", "11111111", "19000101", "99999999"]

def toLowerStr (s : String) : String := String.mk (s.data.map Char.toLower)

/-- `IsValidIdentity` (validation.go).  Go `len` is byte length, so string
lengths are compared via `String.utf8ByteSize`. -/
def IsValidIdentity (name dob : String) : Bool :=
  let nameNormalized := toLowerStr (NormalizeName name)
  let dobStr := trimSpace dob
  if PlaceholderNames.contains nameNormalized || nameNormalized.utf8ByteSize < 3 then
    false
  else if PlaceholderDOBs.contains dobStr || dobStr.utf8ByteSize ≠ 8 then
    false
  else
    true

/-! ## identity/mapper.go — the pseudonymization mapper.

Go maps are embedded as association lists: `mget?` is map lookup and
`mset` is `m[k] = v` (overwrite if the key exists, append otherwise).
`sync.Mutex` serialises every operation in the source, so the embedding is
a plain state transformer. -/

def mget? {α : Type} (m : List (String × α)) (k : String) : Option α :=
  (m.find? (fun e => e.1 == k)).map (fun e => e.2)

def mset {α : Type} : List (String × α) → String → α → List (String × α)
  | [], k, v => [(k, v)]
  | e :: rest, k, v => if e.1 = k then (k, v) :: rest else e :: mset rest k v

/-- `ReverseMapEntry` (mapper.go). -/
structure ReverseMapEntry where
  identityHashes : List String
  patientIDs : List String
deriving DecidableEq

/-- The mapper's mutable state (`PseudonymizationMapper` fields guarded by
its mutex; `mappingFile` and `salt` are immutable and passed separately). -/
structure MState where
  identityMap : List (String × String)
  pidMap : List (String × String)
  reverseMap : List (String × ReverseMapEntry)
  counter : Nat
deriving DecidableEq

def emptyMState : MState := ⟨[], [], [], 0⟩

inductive MatchMethod
  | identity
  | pid
  | anon
deriving DecidableEq

/-- `%06d` zero-padding used by `generateID`. -/
def pad6 (n : Nat) : String :=
  let s := toString n
  String.mk (List.replicate (6 - s.length) '0') ++ s

/-- The anonymous id `ANON-NNNNNN` produced by `generateID` for counter
value `n`. -/
def anonName (n : Nat) : String := "ANON-" ++ pad6 n

def containsStr (l : List String) (v : String) : Bool := l.contains v

/-- `updateReverseMap` (mapper.go): create the entry if missing, append each
non-empty component not already present. -/
def updateReverseMap (m : MState) (anonID identityHash patientID : String) : MState :=
  let entry0 := (mget? m.reverseMap anonID).getD ⟨[], []⟩
  let entry1 :=
    if identityHash ≠ "" && !containsStr entry0.identityHashes identityHash then
      { entry0 with identityHashes := entry0.identityHashes ++ [identityHash] }
    else entry0
  let entry2 :=
    if patientID ≠ "" && !containsStr entry1.patientIDs patientID then
      { entry1 with patientIDs := entry1.patientIDs ++ [patientID] }
    else entry1
  { m with reverseMap := mset m.reverseMap anonID entry2 }

/-- Result of one `GetAnonID` call: the anonymous id, the match method, the
mapper state after the call, and whether `save()` was invoked (an invocation
writes the mapping file exactly when the mapping-file path is non-empty). -/
structure CallResult where
  anonID : String
  method : MatchMethod
  state : MState
  saved : Bool

/-- `GetAnonID` (mapper.go).  `sha12` stands for the SHA-256-based digest of
`CreateIdentityHash` applied to `identityString`; the mapper treats the digest
opaquely, so it is a parameter. -/
def GetAnonID (sha12 : String → String) (salt : String) (m : MState)
    (patientID patientName patientDOB : String) : CallResult :=
  let pid := trimSpace patientID
  let name := trimSpace patientName
  let dob := trimSpace patientDOB
  if IsValidIdentity name dob then
    let identityHash := sha12 (identityString name dob salt)
    match mget? m.identityMap identityHash with
    | some anonID =>
        if pid ≠ "" then
          match mget? m.pidMap pid with
          | some _ => ⟨anonID, .identity, m, false⟩
          | none =>
              ⟨anonID, .identity, { m with pidMap := mset m.pidMap pid anonID }, true⟩
        else ⟨anonID, .identity, m, false⟩
    | none =>
        match mget? m.pidMap pid with
        | some anonID =>
            let m1 := { m with identityMap := mset m.identityMap identityHash anonID }
            let m2 := updateReverseMap m1 anonID identityHash pid
            ⟨anonID, .identity, m2, true⟩
        | none =>
            let c := m.counter + 1
            let anonID := anonName c
            let m1 := { m with counter := c,
                               identityMap := mset m.identityMap identityHash anonID }
            let m2 := if pid ≠ "" then { m1 with pidMap := mset m1.pidMap pid anonID }
                      else m1
            let m3 := updateReverseMap m2 anonID identityHash pid
            ⟨anonID, .identity, m3, true⟩
  else if pid ≠ "" then
    match mget? m.pidMap pid with
    | some anonID => ⟨anonID, .pid, m, false⟩
    | none =>
        let c := m.counter + 1
        let anonID := anonName c
        let m1 := { m with counter := c, pidMap := mset m.pidMap pid anonID }
        let m2 := updateReverseMap m1 anonID "" pid
        ⟨anonID, .pid, m2, true⟩
  else
    ⟨anonName (m.counter + 1), .anon, { m with counter := m.counter + 1 }, true⟩

/-- A sequence of `GetAnonID` calls, each a `(patientID, patientName,
patientDOB)` triple, folded over the mapper state. -/
def runGetAnonIDs (sha12 : String → String) (salt : String)
    (calls : List (String × String × String)) (m : MState) : MState :=
  calls.foldl (fun st c => (GetAnonID sha12 salt st c.1 c.2.1 c.2.2).state) m

/-! ### Association-list lemmas -/

theorem mget?_nil {α : Type} (k : String) : mget? ([] : List (String × α)) k = none := rfl

theorem mget?_cons {α : Type} (e : String × α) (rest : List (String × α)) (k : String) :
    mget? (e :: rest) k = if e.1 = k then some e.2 else mget? rest k := by
  by_cases h : e.1 = k
  · simp [mget?, List.find?_cons_of_pos, h]
  · have h1 : (e.1 == k) = false := by simpa using h
    simp [mget?, List.find?_cons_of_neg, h1, h]

theorem mget?_mset {α : Type} (m : List (String × α)) (k k' : String) (v : α) :
    mget? (mset m k v) k' = if k' = k then some v else mget? m k' := by
  induction m with
  | nil =>
      by_cases h : k' = k
      · simp [mset, mget?_cons, mget?_nil, h]
      · have : ¬ k = k' := fun hh => h hh.symm
        simp [mset, mget?_cons, mget?_nil, h, this]
  | cons e rest ih =>
      by_cases he : e.1 = k
      · subst he
        by_cases h : k' = e.1
        · simp [mset, mget?_cons, h]
        · have : ¬ e.1 = k' := fun hh => h hh.symm
          simp [mset, mget?_cons, h, this]
      · by_cases h2 : e.1 = k'
        · have hne : ¬ k' = k := fun hh => he (h2.trans hh)
          simp [mset, if_neg he, mget?_cons, h2, hne]
        · simp [mset, if_neg he, mget?_cons, h2, ih]

theorem mget?_mset_isSome {α : Type} (m : List (String × α)) (k k' : String) (v : α)
    (h : (mget? m k').isSome) : (mget? (mset m k v) k').isSome := by
  rw [mget?_mset]
  by_cases hk : k' = k <;> simp [hk, h]

/-! ### Reverse-map invariant (claim C3) -/

/-- The entry stored for `anonID` by `updateReverseMap`. -/
def urmEntry (m : MState) (anonID identityHash patientID : String) : ReverseMapEntry :=
  let entry0 := (mget? m.reverseMap anonID).getD ⟨[], []⟩
  let entry1 :=
    if identityHash ≠ "" && !containsStr entry0.identityHashes identityHash then
      { entry0 with identityHashes := entry0.identityHashes ++ [identityHash] }
    else entry0
  if patientID ≠ "" && !containsStr entry1.patientIDs patientID then
    { entry1 with patientIDs := entry1.patientIDs ++ [patientID] }
  else entry1

theorem updateReverseMap_eq (m : MState) (a h p : String) :
    updateReverseMap m a h p = { m with reverseMap := mset m.reverseMap a (urmEntry m a h p) } := rfl

theorem urmEntry_ih_mem (m : MState) (a h p x : String)
    (hx : x ∈ (urmEntry m a h p).identityHashes) :
    (∃ e0, mget? m.reverseMap a = some e0 ∧ x ∈ e0.identityHashes) ∨ (x = h ∧ h ≠ "") := by
  unfold urmEntry at hx
  cases h0 : mget? m.reverseMap a with
  | none =>
      simp only [h0, Option.getD_none] at hx
      split at hx <;> split at hx <;>
        simp_all [containsStr]
  | some e0 =>
      simp only [h0, Option.getD_some] at hx
      split at hx <;> split at hx <;>
        first
          | (exact Or.inl ⟨e0, rfl, hx⟩)
          | (rcases List.mem_append.1 hx with hx' | hx'
             · exact Or.inl ⟨e0, rfl, hx'⟩
             · rename_i hg _
               simp only [List.mem_singleton] at hx'
               simp only [Bool.and_eq_true, ne_eq, decide_eq_true_eq, Bool.not_eq_eq_eq_not] at hg
               exact Or.inr ⟨hx', hg.1⟩)

theorem urmEntry_pid_mem (m : MState) (a h p x : String)
    (hx : x ∈ (urmEntry m a h p).patientIDs) :
    (∃ e0, mget? m.reverseMap a = some e0 ∧ x ∈ e0.patientIDs) ∨ (x = p ∧ p ≠ "") := by
  unfold urmEntry at hx
  cases h0 : mget? m.reverseMap a with
  | none =>
      simp only [h0, Option.getD_none] at hx
      split at hx <;> split at hx <;>
        simp_all [containsStr]
  | some e0 =>
      simp only [h0, Option.getD_some] at hx
      split at hx
      all_goals
        split at hx <;>
          first
            | (exact Or.inl ⟨e0, rfl, hx⟩)
            | (rcases List.mem_append.1 hx with hx' | hx'
               · exact Or.inl ⟨e0, rfl, hx'⟩
               · rename_i hg
                 simp only [List.mem_singleton] at hx'
                 simp only [Bool.and_eq_true, ne_eq, decide_eq_true_eq,
                   Bool.not_eq_eq_eq_not] at hg
                 exact Or.inr ⟨hx', hg.1⟩)

/-- The invariant of claim C3 in its provable direction: every anonymous id
appearing as a forward-map value is a reverse-map key, and everything a
reverse-map entry records maps to that anonymous id under the corresponding
forward map. -/
def ReverseConsistent (m : MState) : Prop :=
  (∀ h a, mget? m.identityMap h = some a → (mget? m.reverseMap a).isSome) ∧
  (∀ p a, mget? m.pidMap p = some a → (mget? m.reverseMap a).isSome) ∧
  (∀ a e, mget? m.reverseMap a = some e →
    (∀ x ∈ e.identityHashes, mget? m.identityMap x = some a) ∧
    (∀ x ∈ e.patientIDs, mget? m.pidMap x = some a))

theorem reverseConsistent_empty : ReverseConsistent emptyMState := by
  refine ⟨?_, ?_, ?_⟩ <;> intro a b hb <;> simp [emptyMState, mget?] at hb

/-- Core preservation lemma covering every `GetAnonID` branch that calls
`updateReverseMap`: a fresh-or-consistent insertion into the forward maps
followed by the reverse-map update keeps `ReverseConsistent`. -/
theorem reverseConsistent_insert_update (m : MState) (c : Nat) (X h p : String)
    (doIM doPM : Bool) (hRC : ReverseConsistent m)
    (him : doIM = true → mget? m.identityMap h = none)
    (hpm : doPM = true → mget? m.pidMap p = none)
    (him2 : doIM = false → h = "")
    (hpm2 : doPM = false → p = "" ∨ mget? m.pidMap p = some X) :
    ReverseConsistent (updateReverseMap
      { m with counter := c,
               identityMap := if doIM then mset m.identityMap h X else m.identityMap,
               pidMap := if doPM then mset m.pidMap p X else m.pidMap } X h p) := by
  obtain ⟨h1, h2, h3⟩ := hRC
  set m' : MState :=
    { m with counter := c,
             identityMap := if doIM then mset m.identityMap h X else m.identityMap,
             pidMap := if doPM then mset m.pidMap p X else m.pidMap } with hm'
  rw [updateReverseMap_eq]
  refine ⟨?_, ?_, ?_⟩
  · intro h₀ a₀ hl
    simp only [hm'] at hl
    simp only [mget?_mset]
    by_cases ha : a₀ = X
    · simp [ha]
    · simp only [if_neg ha]
      cases hd : doIM with
      | true =>
          simp only [hd, if_true, mget?_mset] at hl
          by_cases hh : h₀ = h
          · rw [if_pos hh] at hl
            exact absurd (Option.some.inj hl).symm ha
          · rw [if_neg hh] at hl
            exact h1 h₀ a₀ hl
      | false =>
          simp only [hd, Bool.false_eq_true, if_false] at hl
          exact h1 h₀ a₀ hl
  · intro p₀ a₀ hl
    simp only [hm'] at hl
    simp only [mget?_mset]
    by_cases ha : a₀ = X
    · simp [ha]
    · simp only [if_neg ha]
      cases hd : doPM with
      | true =>
          simp only [hd, if_true, mget?_mset] at hl
          by_cases hh : p₀ = p
          · rw [if_pos hh] at hl
            exact absurd (Option.some.inj hl).symm ha
          · rw [if_neg hh] at hl
            exact h2 p₀ a₀ hl
      | false =>
          simp only [hd, Bool.false_eq_true, if_false] at hl
          exact h2 p₀ a₀ hl
  · intro a₀ e₀ hl
    simp only [mget?_mset] at hl
    by_cases ha : a₀ = X
    · rw [if_pos ha] at hl
      have he₀ : e₀ = urmEntry m' X h p := (Option.some.inj hl).symm
      subst he₀
      constructor
      · intro x hx
        rcases urmEntry_ih_mem m' X h p x hx with ⟨e1, he1, hxe1⟩ | ⟨hxh, hne⟩
        · have he1' : mget? m.reverseMap X = some e1 := he1
          have hfwd := (h3 X e1 he1').1 x hxe1
          simp only [hm', ha]
          cases hd : doIM with
          | true =>
              simp only [hd, if_true, mget?_mset]
              have hxh : ¬ x = h := by
                intro hxh
                rw [hxh] at hfwd
                rw [him hd] at hfwd
                exact Option.noConfusion hfwd
              rw [if_neg hxh]
              exact hfwd
          | false =>
              simp only [hd, Bool.false_eq_true, if_false]
              exact hfwd
        · subst hxh
          cases hd : doIM with
          | true =>
              simp only [hm', ha, hd, if_true, mget?_mset, if_pos rfl]
          | false =>
              exact absurd (him2 hd) hne
      · intro x hx
        rcases urmEntry_pid_mem m' X h p x hx with ⟨e1, he1, hxe1⟩ | ⟨hxp, hne⟩
        · have he1' : mget? m.reverseMap X = some e1 := he1
          have hfwd := (h3 X e1 he1').2 x hxe1
          simp only [hm', ha]
          cases hd : doPM with
          | true =>
              simp only [hd, if_true, mget?_mset]
              have hxp : ¬ x = p := by
                intro hxp
                rw [hxp] at hfwd
                rw [hpm hd] at hfwd
                exact Option.noConfusion hfwd
              rw [if_neg hxp]
              exact hfwd
          | false =>
              simp only [hd, Bool.false_eq_true, if_false]
              exact hfwd
        · subst hxp
          cases hd : doPM with
          | true =>
              simp only [hm', ha, hd, if_true, mget?_mset, if_pos rfl]
          | false =>
              rcases hpm2 hd with hp0 | hp0
              · exact absurd hp0 hne
              · simp only [hm', ha, hd, Bool.false_eq_true, if_false]
                exact hp0
    · rw [if_neg ha] at hl
      have hl' : mget? m.reverseMap a₀ = some e₀ := hl
      obtain ⟨hih, hpd⟩ := h3 a₀ e₀ hl'
      constructor
      · intro x hx
        have hfwd := hih x hx
        simp only [hm']
        cases hd : doIM with
        | true =>
            simp only [hd, if_true, mget?_mset]
            have hxh : ¬ x = h := by
              intro hxh
              rw [hxh] at hfwd
              rw [him hd] at hfwd
              exact Option.noConfusion hfwd
            rw [if_neg hxh]
            exact hfwd
        | false =>
            simp only [hd, Bool.false_eq_true, if_false]
            exact hfwd
      · intro x hx
        have hfwd := hpd x hx
        simp only [hm']
        cases hd : doPM with
        | true =>
            simp only [hd, if_true, mget?_mset]
            have hxp : ¬ x = p := by
              intro hxp
              rw [hxp] at hfwd
              rw [hpm hd] at hfwd
              exact Option.noConfusion hfwd
            rw [if_neg hxp]
            exact hfwd
        | false =>
            simp only [hd, Bool.false_eq_true, if_false]
            exact hfwd

/-- Branch (b) of `GetAnonID`: recording the PID of an already-mapped
identity touches the pid map only; consistency is preserved. -/
theorem reverseConsistent_pid_record (m : MState) (h p X : String)
    (hRC : ReverseConsistent m)
    (him : mget? m.identityMap h = some X)
    (hpm : mget? m.pidMap p = none) :
    ReverseConsistent { m with pidMap := mset m.pidMap p X } := by
  obtain ⟨h1, h2, h3⟩ := hRC
  refine ⟨?_, ?_, ?_⟩
  · intro h₀ a₀ hl
    exact h1 h₀ a₀ hl
  · intro p₀ a₀ hl
    simp only [mget?_mset] at hl
    by_cases hp : p₀ = p
    · rw [if_pos hp] at hl
      have hax : a₀ = X := (Option.some.inj hl).symm
      subst hax
      exact h1 h a₀ him
    · rw [if_neg hp] at hl
      exact h2 p₀ a₀ hl
  · intro a₀ e₀ hl
    obtain ⟨hih, hpd⟩ := h3 a₀ e₀ hl
    refine ⟨hih, ?_⟩
    intro x hx
    have hfwd := hpd x hx
    simp only [mget?_mset]
    have hxp : ¬ x = p := by
      intro hxp
      rw [hxp, hpm] at hfwd
      exact Option.noConfusion hfwd
    rw [if_neg hxp]
    exact hfwd

theorem reverseConsistent_counter (m : MState) (c : Nat)
    (hRC : ReverseConsistent m) : ReverseConsistent { m with counter := c } := hRC

/-- One `GetAnonID` call preserves the reverse-map invariant. -/
theorem getAnonID_preserves (sha12 : String → String) (salt : String) (m : MState)
    (patientID patientName patientDOB : String) (hRC : ReverseConsistent m) :
    ReverseConsistent (GetAnonID sha12 salt m patientID patientName patientDOB).state := by
  unfold GetAnonID
  dsimp only
  by_cases hv : IsValidIdentity (trimSpace patientName) (trimSpace patientDOB)
  · simp only [hv, if_true]
    cases him : mget? m.identityMap
        (sha12 (identityString (trimSpace patientName) (trimSpace patientDOB) salt)) with
    | some X =>
        dsimp only
        by_cases hp : trimSpace patientID ≠ ""
        · rw [if_pos hp]
          cases hpm : mget? m.pidMap (trimSpace patientID) with
          | some _ => exact hRC
          | none => exact reverseConsistent_pid_record m _ _ X hRC him hpm
        · rw [if_neg hp]
          exact hRC
    | none =>
        dsimp only
        cases hpm : mget? m.pidMap (trimSpace patientID) with
        | some X =>
            dsimp only
            have := reverseConsistent_insert_update m m.counter X
              (sha12 (identityString (trimSpace patientName) (trimSpace patientDOB) salt))
              (trimSpace patientID) true false hRC
              (fun _ => him) (fun hx => Bool.noConfusion hx)
              (fun hx => Bool.noConfusion hx) (fun _ => Or.inr hpm)
            simpa using this
        | none =>
            dsimp only
            by_cases hp : trimSpace patientID ≠ ""
            · rw [if_pos hp]
              have := reverseConsistent_insert_update m (m.counter + 1)
                (anonName (m.counter + 1))
                (sha12 (identityString (trimSpace patientName) (trimSpace patientDOB) salt))
                (trimSpace patientID) true true hRC
                (fun _ => him) (fun _ => hpm)
                (fun hx => Bool.noConfusion hx) (fun hx => Bool.noConfusion hx)
              simpa using this
            · rw [if_neg hp]
              have := reverseConsistent_insert_update m (m.counter + 1)
                (anonName (m.counter + 1))
                (sha12 (identityString (trimSpace patientName) (trimSpace patientDOB) salt))
                (trimSpace patientID) true false hRC
                (fun _ => him) (fun hx => Bool.noConfusion hx)
                (fun hx => Bool.noConfusion hx)
                (fun _ => Or.inl (by simpa using hp))
              simpa using this
  · have hvf : IsValidIdentity (trimSpace patientName) (trimSpace patientDOB) = false := by
      simpa using hv
    rw [hvf]
    rw [if_neg (by simp : ¬ (false = true))]
    by_cases hp : trimSpace patientID ≠ ""
    · rw [if_pos hp]
      cases hpm : mget? m.pidMap (trimSpace patientID) with
      | some _ => exact hRC
      | none =>
          dsimp only
          have := reverseConsistent_insert_update m (m.counter + 1)
            (anonName (m.counter + 1)) "" (trimSpace patientID) false true hRC
            (fun hx => Bool.noConfusion hx) (fun _ => hpm)
            (fun _ => rfl) (fun hx => Bool.noConfusion hx)
          simpa using this
    · rw [if_neg hp]
      exact reverseConsistent_counter m _ hRC

theorem runGetAnonIDs_preserves (sha12 : String → String) (salt : String)
    (calls : List (String × String × String)) (m : MState) (hRC : ReverseConsistent m) :
    ReverseConsistent (runGetAnonIDs sha12 salt calls m) := by
  induction calls generalizing m with
  | nil => exact hRC
  | cons c rest ih =>
      exact ih _ (getAnonID_preserves sha12 salt m c.1 c.2.1 c.2.2 hRC)

theorem updateReverseMap_pidMap (m : MState) (a h p : String) :
    (updateReverseMap m a h p).pidMap = m.pidMap := rfl

theorem updateReverseMap_identityMap (m : MState) (a h p : String) :
    (updateReverseMap m a h p).identityMap = m.identityMap := rfl

/-- `GetAnonID` never overwrites an existing pid-map binding. -/
theorem getAnonID_pidMap_mono (sha12 : String → String) (salt : String) (m : MState)
    (a b c p X : String) (h : mget? m.pidMap p = some X) :
    mget? (GetAnonID sha12 salt m a b c).state.pidMap p = some X := by
  unfold GetAnonID
  dsimp only
  by_cases hv : IsValidIdentity (trimSpace b) (trimSpace c)
  · simp only [hv, if_true]
    cases him : mget? m.identityMap (sha12 (identityString (trimSpace b) (trimSpace c) salt)) with
    | some Y =>
        dsimp only
        by_cases hp : trimSpace a ≠ ""
        · rw [if_pos hp]
          cases hpm : mget? m.pidMap (trimSpace a) with
          | some _ => exact h
          | none =>
              dsimp only
              rw [mget?_mset]
              have hne : ¬ p = trimSpace a := by
                intro hpa
                rw [hpa, hpm] at h
                exact Option.noConfusion h
              rw [if_neg hne]
              exact h
        · rw [if_neg hp]
          exact h
    | none =>
        dsimp only
        cases hpm : mget? m.pidMap (trimSpace a) with
        | some Y =>
            dsimp only
            rw [updateReverseMap_pidMap]
            exact h
        | none =>
            dsimp only
            by_cases hp : trimSpace a ≠ ""
            · rw [if_pos hp]
              rw [updateReverseMap_pidMap]
              dsimp only
              rw [mget?_mset]
              have hne : ¬ p = trimSpace a := by
                intro hpa
                rw [hpa, hpm] at h
                exact Option.noConfusion h
              rw [if_neg hne]
              exact h
            · rw [if_neg hp]
              rw [updateReverseMap_pidMap]
              exact h
  · have hvf : IsValidIdentity (trimSpace b) (trimSpace c) = false := by simpa using hv
    rw [hvf]
    rw [if_neg (by simp : ¬ (false = true))]
    by_cases hp : trimSpace a ≠ ""
    · rw [if_pos hp]
      cases hpm : mget? m.pidMap (trimSpace a) with
      | some _ => exact h
      | none =>
          dsimp only
          rw [updateReverseMap_pidMap]
          dsimp only
          rw [mget?_mset]
          have hne : ¬ p = trimSpace a := by
            intro hpa
            rw [hpa, hpm] at h
            exact Option.noConfusion h
          rw [if_neg hne]
          exact h
    · rw [if_neg hp]
      exact h

theorem runGetAnonIDs_pidMap_mono (sha12 : String → String) (salt : String)
    (cs : List (String × String × String)) (m : MState) (p X : String)
    (h : mget? m.pidMap p = some X) :
    mget? (runGetAnonIDs sha12 salt cs m).pidMap p = some X := by
  induction cs generalizing m with
  | nil => exact h
  | cons c rest ih => exact ih _ (getAnonID_pidMap_mono sha12 salt m c.1 c.2.1 c.2.2 p X h)

/-- A call with an invalid identity and a non-empty PID leaves the pid map
binding that PID to the returned anonymous id. -/
theorem getAnonID_invalid_assigns (sha12 : String → String) (salt : String) (m : MState)
    (pid name dob : String)
    (hinv : IsValidIdentity (trimSpace name) (trimSpace dob) = false)
    (hpne : trimSpace pid ≠ "") :
    mget? (GetAnonID sha12 salt m pid name dob).state.pidMap (trimSpace pid) =
      some (GetAnonID sha12 salt m pid name dob).anonID := by
  unfold GetAnonID
  dsimp only
  rw [hinv]
  rw [if_neg (by simp : ¬ (false = true))]
  rw [if_pos hpne]
  cases hpm : mget? m.pidMap (trimSpace pid) with
  | some a =>
      dsimp only
      exact hpm
  | none =>
      dsimp only
      rw [updateReverseMap_pidMap]
      dsimp only
      rw [mget?_mset]
      rw [if_pos rfl]

/-- Single-call adoption lemma: with a valid identity, a non-empty PID already
mapped to `X`, and the identity hash unmapped or mapped to `X`, the call
returns `X` by identity match and stores the hash. -/
theorem getAnonID_identity_adopts (sha12 : String → String) (salt : String) (m : MState)
    (pid name dob X : String)
    (hval : IsValidIdentity (trimSpace name) (trimSpace dob) = true)
    (hpne : trimSpace pid ≠ "")
    (hpid : mget? m.pidMap (trimSpace pid) = some X)
    (hid : mget? m.identityMap (sha12 (identityString (trimSpace name) (trimSpace dob) salt)) = none ∨
           mget? m.identityMap (sha12 (identityString (trimSpace name) (trimSpace dob) salt)) = some X) :
    (GetAnonID sha12 salt m pid name dob).anonID = X ∧
    (GetAnonID sha12 salt m pid name dob).method = MatchMethod.identity ∧
    mget? (GetAnonID sha12 salt m pid name dob).state.identityMap
      (sha12 (identityString (trimSpace name) (trimSpace dob) salt)) = some X := by
  unfold GetAnonID
  dsimp only
  rw [hval]
  rw [if_pos rfl]
  rcases hid with hid | hid
  · rw [hid]
    dsimp only
    rw [hpid]
    dsimp only
    refine ⟨rfl, rfl, ?_⟩
    rw [updateReverseMap_identityMap]
    dsimp only
    rw [mget?_mset]
    rw [if_pos rfl]
  · rw [hid]
    dsimp only
    rw [if_pos hpne]
    rw [hpid]
    dsimp only
    exact ⟨rfl, rfl, hid⟩

/-! ### Claim C1 -/

/-- C1 (corrected).  If an earlier `GetAnonID` call supplied only a non-empty
patient ID (invalid identity) and was assigned anonymous id `X`, then after
any further calls, a later call supplying a valid identity together with that
same patient ID returns `X` with match method `identity` and stores the
identity hash mapping to `X` — provided the identity hash is, at the time of
the later call, either unmapped or already mapped to `X`.  (As the
counterexample shows, without that proviso an intervening call can bind the
identity to a different anonymous id, which the code then prefers over the
pid map.) -/
theorem getAnonID_pid_then_identity (sha12 : String → String) (salt : String)
    (m0 : MState) (pid0 name0 dob0 : String) (cs : List (String × String × String))
    (pid name dob : String)
    (hinv : IsValidIdentity (trimSpace name0) (trimSpace dob0) = false)
    (hpne0 : trimSpace pid0 ≠ "")
    (hsame : trimSpace pid = trimSpace pid0)
    (hval : IsValidIdentity (trimSpace name) (trimSpace dob) = true)
    (hid : mget? (runGetAnonIDs sha12 salt cs
              (GetAnonID sha12 salt m0 pid0 name0 dob0).state).identityMap
             (sha12 (identityString (trimSpace name) (trimSpace dob) salt)) = none ∨
           mget? (runGetAnonIDs sha12 salt cs
              (GetAnonID sha12 salt m0 pid0 name0 dob0).state).identityMap
             (sha12 (identityString (trimSpace name) (trimSpace dob) salt)) =
             some (GetAnonID sha12 salt m0 pid0 name0 dob0).anonID) :
    (GetAnonID sha12 salt (runGetAnonIDs sha12 salt cs
        (GetAnonID sha12 salt m0 pid0 name0 dob0).state) pid name dob).anonID =
      (GetAnonID sha12 salt m0 pid0 name0 dob0).anonID ∧
    (GetAnonID sha12 salt (runGetAnonIDs sha12 salt cs
        (GetAnonID sha12 salt m0 pid0 name0 dob0).state) pid name dob).method =
      MatchMethod.identity ∧
    mget? (GetAnonID sha12 salt (runGetAnonIDs sha12 salt cs
        (GetAnonID sha12 salt m0 pid0 name0 dob0).state) pid name dob).state.identityMap
      (sha12 (identityString (trimSpace name) (trimSpace dob) salt)) =
      some (GetAnonID sha12 salt m0 pid0 name0 dob0).anonID := by
  have h0 := getAnonID_invalid_assigns sha12 salt m0 pid0 name0 dob0 hinv hpne0
  have hmid := runGetAnonIDs_pidMap_mono sha12 salt cs
    (GetAnonID sha12 salt m0 pid0 name0 dob0).state (trimSpace pid0)
    (GetAnonID sha12 salt m0 pid0 name0 dob0).anonID h0
  have hpne : trimSpace pid ≠ "" := by rw [hsame]; exact hpne0
  have hpid : mget? (runGetAnonIDs sha12 salt cs
      (GetAnonID sha12 salt m0 pid0 name0 dob0).state).pidMap (trimSpace pid) =
      some (GetAnonID sha12 salt m0 pid0 name0 dob0).anonID := by
    rw [hsame]
    exact hmid
  exact getAnonID_identity_adopts sha12 salt _ pid name dob _ hval hpne hpid hid

/-- Closed witness for C1's theorem: a concrete three-call run through the
adoption branch, with the identity function as the digest stand-in. -/
theorem getAnonID_pid_then_identity_witness :
    (GetAnonID id "s" (runGetAnonIDs id "s" [("Q", "", "")]
        (GetAnonID id "s" emptyMState "P" "" "").state) "P" "John Smith" "19800101").anonID =
      (GetAnonID id "s" emptyMState "P" "" "").anonID ∧
    (GetAnonID id "s" (runGetAnonIDs id "s" [("Q", "", "")]
        (GetAnonID id "s" emptyMState "P" "" "").state) "P" "John Smith" "19800101").method =
      MatchMethod.identity ∧
    mget? (GetAnonID id "s" (runGetAnonIDs id "s" [("Q", "", "")]
        (GetAnonID id "s" emptyMState "P" "" "").state) "P" "John Smith" "19800101").state.identityMap
      (id (identityString (trimSpace "John Smith") (trimSpace "19800101") "s")) =
      some (GetAnonID id "s" emptyMState "P" "" "").anonID :=
  getAnonID_pid_then_identity id "s" emptyMState "P" "" "" [("Q", "", "")]
    "P" "John Smith" "19800101" (by decide) (by decide) rfl (by decide)
    (Or.inl (by decide))

def c1m1 : MState := (GetAnonID id "s" emptyMState "P" "" "").state

def c1m2 : MState := (GetAnonID id "s" c1m1 "P2" "John Smith" "19800101").state

/-- Counterexample to C1 as frozen: the first call assigns `X = ANON-000001`
to PID `P`; an intervening call binds the identity (with a different PID) to
`ANON-000002`; the later call with the valid identity and the same PID `P`
then returns `ANON-000002`, not `X`, and the identity map holds
`ANON-000002`. -/
theorem getAnonID_pid_then_identity_cex :
    IsValidIdentity "" "" = false ∧
    (GetAnonID id "s" emptyMState "P" "" "").anonID = "ANON-000001" ∧
    IsValidIdentity "John Smith" "19800101" = true ∧
    (GetAnonID id "s" c1m2 "P" "John Smith" "19800101").anonID = "ANON-000002" ∧
    mget? (GetAnonID id "s" c1m2 "P" "John Smith" "19800101").state.identityMap
      (id (identityString "John Smith" "19800101" "s")) = some "ANON-000002" := by
  decide

/-! ### Claim C3 -/

/-- C3 (corrected).  After any sequence of `GetAnonID` operations from the
empty mapper state, every anonymous id occurring as a value of the identity
map or the pid map is a key of the reverse map, and everything a reverse-map
entry records maps to that anonymous id under the corresponding forward map.
(The frozen claim's stronger "exactly the inverse image" is refuted by the
counterexample: adopting a PID for an already-mapped identity updates the pid
map without updating the reverse map.) -/
theorem mapper_reverse_map_invariant (sha12 : String → String) (salt : String)
    (calls : List (String × String × String)) :
    ReverseConsistent (runGetAnonIDs sha12 salt calls emptyMState) :=
  runGetAnonIDs_preserves sha12 salt calls emptyMState reverseConsistent_empty

def c3m : MState :=
  runGetAnonIDs id "s"
    [("", "John Smith", "19800101"), ("P1", "John Smith", "19800101")] emptyMState

/-- Counterexample to C3 as frozen: after the two-call run, the pid map binds
`P1` to `ANON-000001` but the reverse-map entry for `ANON-000001` records no
patient ID, so the entry is not exactly the inverse image of the pid map. -/
theorem mapper_reverse_map_invariant_cex :
    mget? c3m.pidMap "P1" = some "ANON-000001" ∧
    (mget? c3m.reverseMap "ANON-000001").map (fun e => e.patientIDs) = some [] := by
  decide

/-! ## progress tracker (Tracker, IsProcessed, MarkSuccess, MarkError).

The file system is a parameter `disk` mapping a path to `some (size,
mtime-unix)` when `os.Stat` succeeds and `none` when the file is missing;
the truncated-MD5 digest of `fileHash` is the parameter `md5h`. -/

inductive FileStatus
  | success
  | error
deriving DecidableEq

/-- `FileEntry` (tracker.go); the informational timestamp is omitted. -/
structure FileEntry where
  status : FileStatus
  hash : String
  output : String
  errMsg : String
deriving DecidableEq

abbrev TState := List (String × FileEntry)

abbrev Disk := String → Option (Int × Int)

/-- `fileHash` (tracker.go): hex of the first 4 MD5 bytes of
`"<size>_<mtime>"`; the empty string when `os.Stat` fails. -/
def fileHash (md5h : String → String) (disk : Disk) (p : String) : String :=
  match disk p with
  | none => ""
  | some info => md5h (toString info.1 ++ "_" ++ toString info.2)

/-- `IsProcessed` (tracker.go). -/
def IsProcessed (md5h : String → String) (disk : Disk) (t : TState) (p : String) : Bool :=
  match mget? t p with
  | none => false
  | some e =>
      if e.status ≠ FileStatus.success then false
      else e.hash == fileHash md5h disk p

/-- `MarkSuccess` (tracker.go). -/
def MarkSuccess (md5h : String → String) (disk : Disk) (t : TState)
    (p outPath : String) : TState :=
  mset t p ⟨FileStatus.success, fileHash md5h disk p, outPath, ""⟩

/-- `MarkError` (tracker.go). -/
def MarkError (md5h : String → String) (disk : Disk) (t : TState)
    (p msg : String) : TState :=
  mset t p ⟨FileStatus.error, fileHash md5h disk p, "", msg⟩

/-! ### Claim C4 -/

/-- C4 (corrected).  `IsProcessed` returns true exactly when the tracker
holds an entry with status success whose stored fingerprint equals
`fileHash` of the file currently on disk — where a missing file's
fingerprint is the empty string.  Consequently a missing file yields false
whenever the stored fingerprint is non-empty; when the stored fingerprint is
itself empty (as `MarkSuccess` stores for a file already missing when
marked), a missing file yields true, refuting the frozen claim's
unconditional "missing file returns false". -/
theorem isProcessed_characterization (md5h : String → String) (disk : Disk)
    (t : TState) (p : String) :
    (IsProcessed md5h disk t p = true ↔
      ∃ e, mget? t p = some e ∧ e.status = FileStatus.success ∧
        e.hash = fileHash md5h disk p) ∧
    (disk p = none → IsProcessed md5h disk t p = true →
      ∃ e, mget? t p = some e ∧ e.status = FileStatus.success ∧ e.hash = "") := by
  have hiff : IsProcessed md5h disk t p = true ↔
      ∃ e, mget? t p = some e ∧ e.status = FileStatus.success ∧
        e.hash = fileHash md5h disk p := by
    unfold IsProcessed
    cases h : mget? t p with
    | none => simp
    | some e =>
        by_cases hs : e.status = FileStatus.success
        · simp [hs, beq_iff_eq]
        · simp [hs]
  refine ⟨hiff, ?_⟩
  intro hmiss hproc
  obtain ⟨e, he, hs, hh⟩ := hiff.1 hproc
  refine ⟨e, he, hs, ?_⟩
  rw [hh]
  unfold fileHash
  rw [hmiss]

def diskNone : Disk := fun _ => none

def c4t : TState := [("p", ⟨FileStatus.success, "", "out", ""⟩)]

/-- Counterexample to C4 as frozen: a success entry with the empty stored
fingerprint (as stored when the file was missing at mark time) makes
`IsProcessed` return true even though the file is missing on disk. -/
theorem isProcessed_missing_cex :
    diskNone "p" = none ∧ IsProcessed (fun s => s) diskNone c4t "p" = true := by
  constructor
  · rfl
  · decide

/-! ## anonymizer/ultrasound.go — pixel redaction, raw-byte-payload case. -/

/-- `bytes_per_row` as `redactPixels` computes it: attribute values as read
by `getIntValue` (`0` when absent), defaults `samples 0 → 1` and
`bitsAlloc 0 → 8`, and Go integer division `bitsAlloc / 8`. -/
def goBytesPerRow (cols samples bitsAlloc : Int) : Int :=
  let samples1 := if samples = 0 then 1 else samples
  let bitsAlloc1 := if bitsAlloc = 0 then 8 else bitsAlloc
  cols * samples1 * (bitsAlloc1 / 8)

/-- The spec's formula, with the ceiling `⌈BitsAllocated/8⌉` in place of the
code's integer division; for comparison only. -/
def specBytesPerRow (cols samples bitsAlloc : Int) : Int :=
  let samples1 := if samples = 0 then 1 else samples
  let bitsAlloc1 := if bitsAlloc = 0 then 8 else bitsAlloc
  cols * samples1 * ((bitsAlloc1 + 7) / 8)

/-- The zeroing loop `for i := 0; i < n; i++ { v[i] = 0 }`. -/
def zeroHead : Nat → List Nat → List Nat
  | 0, l => l
  | _ + 1, [] => []
  | n + 1, _ :: rest => 0 :: zeroHead n rest

/-- `redactPixels` (ultrasound.go), `[]byte` payload case. -/
def redactPixelsRaw (cols samples bitsAlloc redactRows : Int) (payload : List Nat) :
    List Nat :=
  let bytesPerRow := goBytesPerRow cols samples bitsAlloc
  let redactBytes := min (redactRows * bytesPerRow) (payload.length : Int)
  zeroHead redactBytes.toNat payload

theorem zeroHead_eq (n : Nat) (l : List Nat) :
    zeroHead n l = List.replicate (min n l.length) 0 ++ l.drop n := by
  induction n generalizing l with
  | zero => simp [zeroHead]
  | succ k ih =>
      cases l with
      | nil => simp [zeroHead]
      | cons b rest =>
          simp [zeroHead, ih, List.replicate_succ, Nat.succ_min_succ]

/-! ### Claim C5 -/

/-- C5 (corrected).  Redacting `r` rows of a raw-byte payload zeroes exactly
the first `min(r · Columns · SamplesPerPixel · (BitsAllocated / 8), length)`
bytes — Go integer division, not the ceiling the frozen claim states — and
leaves every byte after that unchanged; SamplesPerPixel defaults to 1 and
BitsAllocated to 8 when absent. -/
theorem redactPixelsRaw_zeroes (cols samples bitsAlloc redactRows : Int)
    (payload : List Nat) :
    redactPixelsRaw cols samples bitsAlloc redactRows payload =
      List.replicate
        (min (redactRows * goBytesPerRow cols samples bitsAlloc)
          (payload.length : Int)).toNat 0 ++
      payload.drop
        (min (redactRows * goBytesPerRow cols samples bitsAlloc)
          (payload.length : Int)).toNat := by
  unfold redactPixelsRaw
  rw [zeroHead_eq]
  have hle : (min (redactRows * goBytesPerRow cols samples bitsAlloc)
      (payload.length : Int)).toNat ≤ payload.length := by
    have h1 : min (redactRows * goBytesPerRow cols samples bitsAlloc)
        (payload.length : Int) ≤ (payload.length : Int) :=
      min_le_right _ _
    have h2 := Int.toNat_le_toNat h1
    rwa [Int.toNat_natCast] at h2
  rw [Nat.min_eq_left hle]

/-- Counterexample to C5 as frozen: with BitsAllocated = 12 the code zeroes
`12 / 8 = 1` byte per sample (two bytes for two columns) while the claim's
`⌈12/8⌉ = 2` would zero all four. -/
theorem redactPixelsRaw_cex :
    redactPixelsRaw 2 1 12 1 [1, 1, 1, 1] = [0, 0, 1, 1] ∧
    (min (1 * specBytesPerRow 2 1 12) (4 : Int)).toNat = 4 := by
  decide

/-! ## Folder pipeline (part of the anonymizer package): patient grouping
and the dry-run path of `ProcessFolder`.

`ReadDicomMetadataOnly` is the parser collaborator: `some (name, dob, pid)`
on success, `none` on read failure.  Go map insertion is modelled by the
insertion-ordered `addFileToGroups`; the `for ... range` over the Go map
that turns the group map into a slice has unspecified iteration order, which
is modelled by the permutation parameter `perm`. -/

/-- `PatientGroup` (folder pipeline). -/
structure PatientGroup where
  key : String
  name : String
  dob : String
  pid : String
  files : List String
deriving DecidableEq

abbrev MetaReader := String → Option (String × String × String)

/-- Insert a file into its patient group, creating the group on first
sight (Go map semantics: at most one group per key). -/
def addFileToGroups : List PatientGroup → String → String → String → String → String →
    List PatientGroup
  | [], key, name, dob, pid, f => [⟨key, name, dob, pid, [f]⟩]
  | g :: gs, key, name, dob, pid, f =>
      if g.key = key then { g with files := g.files ++ [f] } :: gs
      else g :: addFileToGroups gs key name dob pid f

/-- One iteration of the `groupFilesByPatient` loop body. -/
def groupStep (sha12 : String → String) (salt : String) (meta : MetaReader)
    (gs : List PatientGroup) (f : String) : List PatientGroup :=
  match meta f with
  | none => addFileToGroups gs "UNKNOWN" "" "" "" f
  | some md =>
      let name := md.1
      let dob := md.2.1
      let pid := if md.2.2 = "" then "UNKNOWN" else md.2.2
      let key :=
        if IsValidIdentity name dob then sha12 (identityString name dob salt)
        else "PID:" ++ pid
      addFileToGroups gs key name dob pid f

/-- `groupFilesByPatient` (folder pipeline) up to the map-to-slice
conversion: the groups in key-insertion order. -/
def groupFilesByPatientOrdered (sha12 : String → String) (salt : String)
    (meta : MetaReader) (files : List String) : List PatientGroup :=
  files.foldl (groupStep sha12 salt meta) []

/-- `Stats` (folder pipeline). -/
structure Stats where
  success : Nat
  failed : Nat
  skipped : Nat
  identityMatched : Nat
  pidMatched : Nat
  totalPatients : Nat
deriving DecidableEq

/-- Accumulator of the `dryRun` loop. -/
structure DryAcc where
  mapper : MState
  identityCount : Nat
  pidCount : Nat
  totalFiles : Nat
  saves : Nat
deriving DecidableEq

def dryRunStep (sha12 : String → String) (salt : String) (acc : DryAcc)
    (p : PatientGroup) : DryAcc :=
  let r := GetAnonID sha12 salt acc.mapper p.pid p.name p.dob
  { mapper := r.state,
    identityCount := if r.method = MatchMethod.identity then acc.identityCount + 1
                     else acc.identityCount,
    pidCount := if r.method = MatchMethod.identity then acc.pidCount else acc.pidCount + 1,
    totalFiles := acc.totalFiles + p.files.length,
    saves := acc.saves + (if r.saved then 1 else 0) }

/-- `dryRun` (folder pipeline): queries the mapper per group, counts all
files as skipped.  Returns the stats, the mapper state after the loop, and
how many times `save()` ran. -/
def dryRunModel (sha12 : String → String) (salt : String)
    (patients : List PatientGroup) (m : MState) : Stats × MState × Nat :=
  let acc := patients.foldl (dryRunStep sha12 salt) ⟨m, 0, 0, 0, 0⟩
  (⟨0, 0, acc.totalFiles, acc.identityCount, acc.pidCount, patients.length⟩,
    acc.mapper, acc.saves)

/-- Observable write effects of a folder run. -/
inductive RunEffect
  | errorLogCreate
  | progressWrite
  | outputWrite
  | mappingWrite
deriving DecidableEq

/-- `ProcessFolder` (folder pipeline) through its dry-run decision: the
error log is created only when not in dry-run; files are discovered (the
sorted `files` list stands for `FindDicomFiles`); groups are formed; dry-run
dispatches to `dryRunModel`, whose `save()` invocations write the mapping
file exactly when `mappingFile` is non-empty.  The non-dry-run processing
loop is outside the dry-run claims and is marked by `none`. -/
def processFolderDryModel (sha12 : String → String) (salt mappingFile : String)
    (meta : MetaReader) (dryRun : Bool)
    (perm : List PatientGroup → List PatientGroup)
    (files : List String) (m0 : MState) :
    List RunEffect × Option (Stats × MState × Nat) :=
  let setupEffects : List RunEffect := if dryRun then [] else [RunEffect.errorLogCreate]
  if files.isEmpty then (setupEffects, some (⟨0, 0, 0, 0, 0, 0⟩, m0, 0))
  else
    let patients := perm (groupFilesByPatientOrdered sha12 salt meta files)
    if dryRun then
      let r := dryRunModel sha12 salt patients m0
      (setupEffects ++
        (if mappingFile ≠ "" then List.replicate r.2.2 RunEffect.mappingWrite else []),
        some r)
    else (setupEffects, none)

def sumFiles (gs : List PatientGroup) : Nat := (gs.map (fun g => g.files.length)).sum

theorem sumFiles_addFile (gs : List PatientGroup) (key name dob pid f : String) :
    sumFiles (addFileToGroups gs key name dob pid f) = sumFiles gs + 1 := by
  induction gs with
  | nil => simp [addFileToGroups, sumFiles]
  | cons g rest ih =>
      by_cases h : g.key = key
      · simp [addFileToGroups, h, sumFiles]
        omega
      · simp [addFileToGroups, h, sumFiles] at ih ⊢
        omega

theorem sumFiles_groupStep (sha12 : String → String) (salt : String) (meta : MetaReader)
    (gs : List PatientGroup) (f : String) :
    sumFiles (groupStep sha12 salt meta gs f) = sumFiles gs + 1 := by
  unfold groupStep
  cases hm : meta f with
  | none => rw [sumFiles_addFile]
  | some md => rw [sumFiles_addFile]

theorem sumFiles_group (sha12 : String → String) (salt : String) (meta : MetaReader)
    (files : List String) :
    sumFiles (groupFilesByPatientOrdered sha12 salt meta files) = files.length := by
  suffices h : ∀ (fs : List String) (gs : List PatientGroup),
      sumFiles (fs.foldl (groupStep sha12 salt meta) gs) = sumFiles gs + fs.length by
    have := h files []
    simpa [groupFilesByPatientOrdered, sumFiles] using this
  intro fs
  induction fs with
  | nil => intro gs; simp
  | cons f rest ih =>
      intro gs
      rw [List.foldl_cons, ih, sumFiles_groupStep]
      simp
      omega

theorem dryRun_totalFiles (sha12 : String → String) (salt : String)
    (patients : List PatientGroup) (m : MState) :
    (dryRunModel sha12 salt patients m).1.skipped = sumFiles patients := by
  suffices h : ∀ (ps : List PatientGroup) (acc : DryAcc),
      (ps.foldl (dryRunStep sha12 salt) acc).totalFiles = acc.totalFiles + sumFiles ps by
    have := h patients ⟨m, 0, 0, 0, 0⟩
    simp [dryRunModel, this, sumFiles]
  intro ps
  induction ps with
  | nil => intro acc; simp [sumFiles]
  | cons p rest ih =>
      intro acc
      rw [List.foldl_cons, ih]
      simp [dryRunStep, sumFiles]
      omega

/-! ### Claim C2 -/

/-- C2 (corrected).  A dry-run folder run creates no error log, no progress
file and no output folder — its only write effects are mapping-file writes —
and its stats count every discovered file as skipped with no successes or
failures.  (The frozen claim's "performs no writes at all" and "leaves the
mapper unchanged" are refuted by the counterexample: the dry-run loop calls
`GetAnonID`, which allocates ids and persists the mapping file.) -/
theorem processFolder_dryRun_frame (sha12 : String → String) (salt mappingFile : String)
    (meta : MetaReader) (perm : List PatientGroup → List PatientGroup)
    (files : List String) (m0 : MState)
    (hperm : (perm (groupFilesByPatientOrdered sha12 salt meta files)).Perm
        (groupFilesByPatientOrdered sha12 salt meta files)) :
    (∀ e ∈ (processFolderDryModel sha12 salt mappingFile meta true perm files m0).1,
       e = RunEffect.mappingWrite) ∧
    (∀ st, (processFolderDryModel sha12 salt mappingFile meta true perm files m0).2 = some st →
       st.1.success = 0 ∧ st.1.failed = 0 ∧ st.1.skipped = files.length) := by
  constructor
  · intro e he
    unfold processFolderDryModel at he
    by_cases hf : files.isEmpty
    · simp [hf] at he
    · simp only [Bool.not_eq_true] at hf
      simp only [hf, Bool.false_eq_true, if_false, if_true, List.nil_append] at he
      by_cases hmf : mappingFile ≠ ""
      · rw [if_pos hmf] at he
        exact List.eq_of_mem_replicate he
      · rw [if_neg hmf] at he
        exact absurd he (List.not_mem_nil e)
  · intro st hst
    unfold processFolderDryModel at hst
    by_cases hf : files.isEmpty
    · simp only [hf, if_true] at hst
      have hst' := Option.some.inj hst
      have hfe : files = [] := List.isEmpty_iff.1 hf
      subst hfe
      rw [← hst']
      exact ⟨rfl, rfl, rfl⟩
    · simp only [Bool.not_eq_true] at hf
      simp only [hf, Bool.false_eq_true, if_false, if_true] at hst
      have hst' := Option.some.inj hst
      rw [← hst']
      refine ⟨rfl, rfl, ?_⟩
      have h1 := dryRun_totalFiles sha12 salt
        (perm (groupFilesByPatientOrdered sha12 salt meta files)) m0
      have h2 : sumFiles (perm (groupFilesByPatientOrdered sha12 salt meta files)) =
          sumFiles (groupFilesByPatientOrdered sha12 salt meta files) := by
        unfold sumFiles
        exact (hperm.map (fun g => g.files.length)).sum_eq
      rw [h1, h2, sumFiles_group]

def c2meta : MetaReader := fun _ => some ("", "", "Q9")

/-- Closed witness for C2's theorem at a concrete dry run. -/
theorem processFolder_dryRun_frame_witness :
    (∀ e ∈ (processFolderDryModel id "s" "map.json" c2meta true (fun l => l)
        ["f1"] emptyMState).1, e = RunEffect.mappingWrite) ∧
    (∃ st, (processFolderDryModel id "s" "map.json" c2meta true (fun l => l)
        ["f1"] emptyMState).2 = some st ∧
      st.1.success = 0 ∧ st.1.failed = 0 ∧ st.1.skipped = 1) := by
  have h := processFolder_dryRun_frame id "s" "map.json" c2meta (fun l => l)
    ["f1"] emptyMState (List.Perm.refl _)
  exact ⟨h.1, ⟨_, rfl, h.2 _ rfl⟩⟩

/-- Counterexample to C2 as frozen: a dry run over one new patient performs
a mapping-file write and changes the mapper's in-memory state. -/
theorem processFolder_dryRun_frame_cex :
    (processFolderDryModel id "s" "map.json" c2meta true (fun l => l)
      ["f1"] emptyMState).1 = [RunEffect.mappingWrite] ∧
    (processFolderDryModel id "s" "map.json" c2meta true (fun l => l)
      ["f1"] emptyMState).2 =
      some (⟨0, 0, 1, 0, 1, 1⟩, (GetAnonID id "s" emptyMState "Q9" "" "").state, 1) ∧
    (GetAnonID id "s" emptyMState "Q9" "" "").state ≠ emptyMState := by
  decide

/-! ### Claim C6 -/

theorem addFileToGroups_files_sub (gs : List PatientGroup) (key name dob pid f : String)
    (full : List String) (h : ∀ g ∈ gs, g.files.Sublist full) :
    ∀ g ∈ addFileToGroups gs key name dob pid f, g.files.Sublist (full ++ [f]) := by
  induction gs with
  | nil =>
      intro g hg
      simp only [addFileToGroups, List.mem_singleton] at hg
      subst hg
      exact (List.nil_sublist full).append_right [f]
  | cons g0 rest ih =>
      intro g hg
      by_cases hk : g0.key = key
      · simp only [addFileToGroups, if_pos hk, List.mem_cons] at hg
        rcases hg with hg | hg
        · subst hg
          exact (h g0 (by simp)).append_right [f]
        · exact ((h g (by simp [hg])).trans (List.sublist_append_left full [f]))
      · simp only [addFileToGroups, if_neg hk, List.mem_cons] at hg
        rcases hg with hg | hg
        · subst hg
          exact ((h g (by simp)).trans (List.sublist_append_left full [f]))
        · exact ih (fun g' hg' => h g' (by simp [hg'])) g hg

theorem groupStep_files_sub (sha12 : String → String) (salt : String) (meta : MetaReader)
    (gs : List PatientGroup) (f : String) (full : List String)
    (h : ∀ g ∈ gs, g.files.Sublist full) :
    ∀ g ∈ groupStep sha12 salt meta gs f, g.files.Sublist (full ++ [f]) := by
  unfold groupStep
  cases hm : meta f with
  | none => exact addFileToGroups_files_sub gs _ _ _ _ f full h
  | some md => exact addFileToGroups_files_sub gs _ _ _ _ f full h

theorem groupFold_files_sub (sha12 : String → String) (salt : String) (meta : MetaReader) :
    ∀ (fs : List String) (gs : List PatientGroup) (full : List String),
      (∀ g ∈ gs, g.files.Sublist full) →
      ∀ g ∈ fs.foldl (groupStep sha12 salt meta) gs, g.files.Sublist (full ++ fs) := by
  intro fs
  induction fs with
  | nil =>
      intro gs full h g hg
      simpa using h g hg
  | cons f rest ih =>
      intro gs full h g hg
      rw [List.foldl_cons] at hg
      have := ih (groupStep sha12 salt meta gs f) (full ++ [f])
        (groupStep_files_sub sha12 salt meta gs f full h) g hg
      simpa [List.append_assoc] using this

/-- C6 (corrected).  Within each patient group the files appear in discovery
order, hence in lexicographic order since `FindDicomFiles` sorts its result;
but the patient groups themselves are handed to the processing loop in Go
map iteration order — an arbitrary permutation of the insertion order, not
deterministically the insertion order of each group's first file (see the
counterexample). -/
theorem groupFiles_within_group_sorted (sha12 : String → String) (salt : String)
    (meta : MetaReader) (files : List String)
    (perm : List PatientGroup → List PatientGroup)
    (hsorted : List.Pairwise (fun a b => strLeb a b = true) files)
    (hperm : (perm (groupFilesByPatientOrdered sha12 salt meta files)).Perm
        (groupFilesByPatientOrdered sha12 salt meta files)) :
    ∀ g ∈ perm (groupFilesByPatientOrdered sha12 salt meta files),
      List.Pairwise (fun a b => strLeb a b = true) g.files := by
  intro g hg
  have hg' : g ∈ groupFilesByPatientOrdered sha12 salt meta files := hperm.mem_iff.1 hg
  have hsub : g.files.Sublist files := by
    have := groupFold_files_sub sha12 salt meta files [] []
      (by intro g' hg'; exact absurd hg' (List.not_mem_nil g')) g hg'
    simpa using this
  exact hsorted.sublist hsub

def c6meta : MetaReader :=
  fun f => if f = "a" then some ("", "", "PA") else some ("", "", "PB")

/-- Closed witness for C6's theorem: the first group of a concrete two-file
run has its files in sorted order. -/
theorem groupFiles_within_group_sorted_witness :
    List.Pairwise (fun a b => strLeb a b = true)
      ((groupFilesByPatientOrdered id "s" c6meta ["a", "b"]).headD
        ⟨"", "", "", "", []⟩).files := by
  have h := groupFiles_within_group_sorted id "s" c6meta ["a", "b"] (fun l => l)
    (by decide) (List.Perm.refl _)
  exact h _ (by decide)

/-- Counterexample to C6 as frozen: Go's map iteration order is unspecified,
so the reversed group list is an admissible processing order, and it differs
from the insertion order of the groups' first files. -/
theorem groupFiles_order_cex :
    ((groupFilesByPatientOrdered id "s" c6meta ["a", "b"]).reverse).Perm
      (groupFilesByPatientOrdered id "s" c6meta ["a", "b"]) ∧
    (groupFilesByPatientOrdered id "s" c6meta ["a", "b"]).reverse ≠
      groupFilesByPatientOrdered id "s" c6meta ["a", "b"] :=
  ⟨List.reverse_perm _, by decide⟩

/-! ## jpegls — the JPEG-LS (ITU-T T.87) encoder.

Go `int` is `Int`; Go integer division and remainder are C-style truncated
operations, which `Int`'s `/` matches for division, while arithmetic right
shift `x >> n` is floor division `intShr`; `x & ((1<<k)-1)` on the
(non-negative) operands in scope is `x % 2^k` (`Int.emod`). -/

/-- Arithmetic shift right on Go `int`: floor division by `2^n`. -/
def intShr (x : Int) (n : Nat) : Int := Int.fdiv x (2 ^ n)

def DefaultReset : Int := 64

def MinC : Int := -128

def MaxC : Int := 127

def LimitK : Nat := 32

/-- `JTable` RK column (params.go): run-length segment exponents. -/
def JTableRKList : List Nat :=
  [0, 0, 0, 0, 1, 1, 1, 1, 2, 2, 2, 2, 3, 3, 3, 3,
   4, 4, 5, 5, 6, 7, 8, 9, 10, 11, 12, 13, 14, 15, 16, 17]

def JTableRK (i : Nat) : Nat := JTableRKList.getD i 0

def JTableLen : Nat := 32

/-- `clamp` (params.go). -/
def clamp (val minVal maxVal : Int) : Int := max minVal (min val maxVal)

/-- `calculateThresholds` (params.go). -/
def calculateThresholds (maxVal near : Int) : Int × Int × Int :=
  if maxVal ≥ 128 then
    let factor := if maxVal > 4095 then 4095 else maxVal
    let t1 := clamp (near + 1 + factor / 256) (near + 1) maxVal
    let t2 := clamp (near + 1 + factor / 64) t1 maxVal
    let t3 := clamp (near + 1 + factor / 16) t2 maxVal
    (t1, t2, t3)
  else
    let t1 := clamp (near + 1 + max ((maxVal + 1) / 16) 1) (near + 1) maxVal
    let t2 := clamp (near + 1 + max ((maxVal + 1) / 8) 1) t1 maxVal
    let t3 := clamp (near + 1 + max ((maxVal + 1) / 4) 1) t2 maxVal
    (t1, t2, t3)

/-- The `qbpp` loop of `NewParams`: smallest `q` with `2^q ≥ rangeVal`.
The accumulator at least doubles each iteration, so `(rangeVal − temp) + 1`
fuel covers every terminating run of the source loop; the source diverges
for a non-positive accumulator, which no caller produces. -/
def qbppLoopF (rangeVal : Int) : Nat → Int → Nat → Nat
  | 0, _, q => q
  | fuel + 1, temp, q =>
      if temp < rangeVal then
        if temp ≤ 0 then 32 else qbppLoopF rangeVal fuel (temp * 2) (q + 1)
      else q

def qbppLoop (rangeVal temp : Int) (q : Nat) : Nat :=
  qbppLoopF rangeVal ((rangeVal - temp).toNat + 1) temp q

/-- `Params` (params.go). -/
structure Params where
  maxVal : Int
  near : Int
  t1 : Int
  t2 : Int
  t3 : Int
  reset : Int
  qbpp : Int
  range : Int
  limit : Int
  bitsPerPixel : Nat
deriving DecidableEq

/-- `NewParams` (params.go). -/
def NewParams (bpp : Nat) (near : Int) : Params :=
  let maxVal : Int := 2 ^ bpp - 1
  let rangeVal := if near = 0 then maxVal + 1 else (maxVal + 2 * near) / (2 * near + 1) + 1
  let ts := calculateThresholds maxVal near
  let qbpp := qbppLoop rangeVal 1 0
  let limit : Int := 2 * ((bpp : Int) + max 8 (bpp : Int))
  ⟨maxVal, near, ts.1, ts.2.1, ts.2.2, DefaultReset, (qbpp : Int), rangeVal, limit, bpp⟩

/-- `Context` statistics (golomb.go / context model). -/
structure Context where
  A : Int
  B : Int
  C : Int
  N : Int
deriving DecidableEq

/-- `ContextModel`: 365 regular contexts, 2 run contexts, RUNindex.
The context arrays are functions from index to record; the run index stays
in `[0, 31]` by construction of its three mutators. -/
structure ContextModel where
  contexts : Nat → Context
  runContexts : Nat → Context
  runIndex : Nat

/-- `NewContextModel` (golomb.go): `A = max((RANGE+32)/64, 2)`, `B = C = 0`,
`N = 1` everywhere, run index 0. -/
def NewContextModel (params : Params) : ContextModel :=
  let initA := max ((params.range + 32) / 64) 2
  ⟨fun _ => ⟨initA, 0, 0, 1⟩, fun _ => ⟨initA, 0, 0, 1⟩, 0⟩

def getContextIdx (cm : ContextModel) (idx : Int) : Context :=
  if idx < 0 ∨ idx ≥ 365 then cm.contexts 0 else cm.contexts idx.toNat

def setContextIdx (cm : ContextModel) (idx : Int) (ctx : Context) : ContextModel :=
  let j := if idx < 0 ∨ idx ≥ 365 then 0 else idx.toNat
  { cm with contexts := fun i => if i = j then ctx else cm.contexts i }

def getRunContext (cm : ContextModel) (idx : Int) : Context :=
  if idx < 0 ∨ idx ≥ 2 then cm.runContexts 0 else cm.runContexts idx.toNat

def setRunContext (cm : ContextModel) (idx : Int) (ctx : Context) : ContextModel :=
  let j := if idx < 0 ∨ idx ≥ 2 then 0 else idx.toNat
  { cm with runContexts := fun i => if i = j then ctx else cm.runContexts i }

def incRunIndex (cm : ContextModel) : ContextModel :=
  if cm.runIndex < JTableLen - 1 then { cm with runIndex := cm.runIndex + 1 } else cm

def decRunIndex (cm : ContextModel) : ContextModel :=
  if cm.runIndex > 0 then { cm with runIndex := cm.runIndex - 1 } else cm

def resetRunIndex (cm : ContextModel) : ContextModel := { cm with runIndex := 0 }

/-- `QuantizeGradient` (golomb.go). -/
def QuantizeGradient (g t1 t2 t3 : Int) : Int :=
  if g < -t3 then -4
  else if g < -t2 then -3
  else if g < -t1 then -2
  else if g < 0 then -1
  else if g = 0 then 0
  else if g ≤ t1 then 1
  else if g ≤ t2 then 2
  else if g ≤ t3 then 3
  else 4

/-- `GetContextIndex` (golomb.go): sign canonicalization then
`Q = 81 q1 + 9 (q2+4) + (q3+4)`. -/
def GetContextIndex (q1 q2 q3 : Int) : Int × Int :=
  if q1 < 0 ∨ (q1 = 0 ∧ q2 < 0) ∨ (q1 = 0 ∧ q2 = 0 ∧ q3 < 0) then
    ((-q1) * 81 + (-q2 + 4) * 9 + (-q3 + 4), -1)
  else
    (q1 * 81 + (q2 + 4) * 9 + (q3 + 4), 1)

def computeContextFromGradients (params : Params) (g1 g2 g3 : Int) : Int × Int :=
  GetContextIndex
    (QuantizeGradient g1 params.t1 params.t2 params.t3)
    (QuantizeGradient g2 params.t1 params.t2 params.t3)
    (QuantizeGradient g3 params.t1 params.t2 params.t3)

/-- The `ComputeK` doubling loop, fuelled like `qbppLoopF`; the source
diverges for a non-positive accumulator below `A` (unreachable: `N ≥ 1`). -/
def computeKAuxF (a : Int) : Nat → Int → Nat → Nat
  | 0, _, k => k
  | fuel + 1, temp, k =>
      if temp < a then
        if temp ≤ 0 then 32 else computeKAuxF a fuel (temp * 2) (k + 1)
      else k

def computeKAux (a temp : Int) (k : Nat) : Nat :=
  computeKAuxF a ((a - temp).toNat + 1) temp k

/-- `ComputeK` (golomb.go): smallest `k` with `N << k ≥ A`, capped at `maxK`. -/
def ComputeK (ctx : Context) (maxK : Nat) : Nat :=
  if ctx.N = 0 then 0
  else
    let k := computeKAux ctx.A ctx.N 0
    if k > maxK then maxK else k

/-- `UpdateStatistics` (golomb.go). -/
def UpdateStatistics (ctx : Context) (errval near reset : Int) : Context :=
  let b1 := ctx.B + errval
  let absErr := if errval < 0 then -errval else errval
  let a1 := ctx.A + absErr
  let a2 := if ctx.N = reset then intShr (a1 + 1) 1 else a1
  let b2 := if ctx.N = reset then
      (if b1 ≥ 0 then intShr (b1 + 1) 1 else -(intShr (1 - b1) 1))
    else b1
  let n2 := if ctx.N = reset then intShr (ctx.N + 1) 1 else ctx.N
  let n3 := n2 + 1
  if b2 ≤ -n3 then
    let b3 := b2 + n3
    let c3 := if ctx.C > MinC then ctx.C - 1 else ctx.C
    let b4 := if b3 ≤ -n3 then -n3 + 1 else b3
    ⟨a2, b4, c3, n3⟩
  else if b2 > 0 then
    let b3 := b2 - n3
    let c3 := if ctx.C < MaxC then ctx.C + 1 else ctx.C
    let b4 := if b3 > 0 then 0 else b3
    ⟨a2, b4, c3, n3⟩
  else ⟨a2, b2, ctx.C, n3⟩

/-- `MapErrorValue` (golomb.go); both arms coincide in the source. -/
def MapErrorValue (errval near : Int) : Int :=
  if near = 0 then
    if errval ≥ 0 then 2 * errval else 2 * (-errval) - 1
  else
    if errval ≥ 0 then 2 * errval else 2 * (-errval) - 1

/-- `ReduceError` (golomb.go): modulo reduction to `(-RANGE/2, RANGE/2]`. -/
def ReduceError (errval rangeVal : Int) : Int :=
  let e1 := if errval < 0 then errval + rangeVal else errval
  if e1 ≥ (rangeVal + 1) / 2 then e1 - rangeVal else e1

/-- `ReconstructSample` (golomb.go). -/
def ReconstructSample (predicted errval sign near maxVal : Int) : Int :=
  let e1 := errval * sign
  let e2 := if near > 0 then e1 * (2 * near + 1) else e1
  let r := predicted + e2
  if r < 0 then 0 else if r > maxVal then maxVal else r

/-- `CorrectPrediction` (golomb.go). -/
def CorrectPrediction (px correction sign maxVal : Int) : Int :=
  let px1 := if sign > 0 then px + correction else px - correction
  if px1 < 0 then 0 else if px1 > maxVal then maxVal else px1

/-- `Predict` (predictor.go): the MED predictor. -/
def Predict (a b c : Int) : Int :=
  if c ≥ max a b then min a b
  else if c ≤ min a b then max a b
  else a + b - c

/-- `ComputeGradients` (predictor.go). -/
def ComputeGradients (a b c d : Int) : Int × Int × Int := (d - b, b - c, c - a)

/-- `DetectRunMode` (runmode.go). -/
def DetectRunMode (g1 g2 g3 : Int) : Bool := g1 = 0 && g2 = 0 && g3 = 0

/-! ### Bit writer (bitwriter.go).  The model records the bytes emitted so
far (`out`, the concatenation the buffered writer eventually produces), the
`uint32` bit accumulator and its fill. -/

structure BitWriter where
  out : List Nat
  bitBuf : Nat
  bitCount : Nat
deriving DecidableEq

def emptyBW : BitWriter := ⟨[], 0, 0⟩

/-- `flushByte` (bitwriter.go): emit the top 8 bits as a byte, with JPEG-LS
stuffing: a `0x00` follows every emitted `0xFF`. -/
def flushByte (bw : BitWriter) : BitWriter :=
  if bw.bitCount < 8 then bw
  else
    let shift := bw.bitCount - 8
    let b := (bw.bitBuf >>> shift) % 256
    let bitBuf := bw.bitBuf % 2 ^ shift
    let out1 := bw.out ++ [b]
    let out2 := if b = 255 then out1 ++ [0] else out1
    ⟨out2, bitBuf, shift⟩

/-- `WriteBit` (bitwriter.go). -/
def WriteBit (bw : BitWriter) (bit : Int) : BitWriter :=
  let bitBuf := (bw.bitBuf * 2 + (bit % 2).toNat) % 2 ^ 32
  let bw1 : BitWriter := ⟨bw.out, bitBuf, bw.bitCount + 1⟩
  if bw1.bitCount ≥ 8 then flushByte bw1 else bw1

/-- `WriteBits` (bitwriter.go): low `n` bits of `val`, MSB first. -/
def WriteBits (bw : BitWriter) (val n : Int) : BitWriter :=
  if n ≤ 0 then bw
  else (List.range n.toNat).reverse.foldl (fun w i => WriteBit w (intShr val i % 2)) bw

/-- `WriteUnary` (bitwriter.go): `n` zeros then a one. -/
def WriteUnary (bw : BitWriter) (n : Int) : BitWriter :=
  let bw1 := (List.range n.toNat).foldl (fun w _ => WriteBit w 0) bw
  WriteBit bw1 1

/-- The padding loop of `Flush` (bitwriter.go): fill the partial byte with
one bits; the eighth bit triggers `flushByte`, ending the loop. -/
def padLoop : Nat → BitWriter → BitWriter
  | 0, bw => bw
  | fuel + 1, bw =>
      if 0 < bw.bitCount ∧ bw.bitCount < 8 then padLoop fuel (WriteBit bw 1) else bw

/-- `Flush` (bitwriter.go); the buffered write to the underlying stream is
observationally the identity on `out`. -/
def FlushBW (bw : BitWriter) : BitWriter := padLoop 8 bw

/-- `EncodeGolomb` (golomb.go): limited-length Golomb-Rice. -/
def EncodeGolomb (bw : BitWriter) (mapped : Int) (k : Nat) (limit qbpp : Int) : BitWriter :=
  let q := intShr mapped k
  if q < limit - qbpp - 1 then
    let bw1 := WriteUnary bw q
    if k > 0 then WriteBits bw1 (mapped % (2 ^ k)) (k : Int) else bw1
  else
    let bw1 := WriteUnary bw (limit - qbpp - 1)
    WriteBits bw1 (mapped - 1) qbpp

/-! ### Neighborhood (predictor.go).  The reconstruction plane is a row-major
`List Int`; every index the encoder forms is in bounds, so `getD`'s default
is never consulted on the source's executions. -/

def ngGet (recon : List Int) (width height defaultVal : Int) (x y : Int) : Int :=
  if x < 0 ∨ y < 0 ∨ x ≥ width ∨ y ≥ height then defaultVal
  else recon.getD (y * width + x).toNat 0

/-- `GetNeighbors` (predictor.go): causal template `(a, b, c, d)` with the
boundary rules. -/
def getNeighbors (recon : List Int) (width height defaultVal : Int) (x y : Int) :
    Int × Int × Int × Int :=
  if y = 0 then
    let a := if x = 0 then defaultVal else ngGet recon width height defaultVal (x - 1) y
    (a, defaultVal, defaultVal, defaultVal)
  else
    let b := ngGet recon width height defaultVal x (y - 1)
    let a := if x = 0 then b else ngGet recon width height defaultVal (x - 1) y
    let c := if x = 0 then b else ngGet recon width height defaultVal (x - 1) (y - 1)
    let d := if x = width - 1 then b else ngGet recon width height defaultVal (x + 1) (y - 1)
    (a, b, c, d)

/-- `SetPixel` (predictor.go). -/
def setPixel (recon : List Int) (width height : Int) (x y v : Int) : List Int :=
  if x ≥ 0 ∧ y ≥ 0 ∧ x < width ∧ y < height then recon.set (y * width + x).toNat v
  else recon

/-! ### Run mode (runmode.go). -/

/-- `pixelsMatch` (runmode.go). -/
def pixelsMatch (params : Params) (pixel refVal : Int) : Bool :=
  if params.near = 0 then pixel = refVal
  else (if pixel - refVal < 0 then -(pixel - refVal) else pixel - refVal) ≤ params.near

/-- The run-counting loop of `EncodeRun`. -/
def countRunAux (params : Params) (recon : List Int) (refVal : Int) :
    Nat → Nat → Nat
  | _, 0 => 0
  | idx, rem + 1 =>
      if pixelsMatch params (recon.getD idx 0) refVal then
        1 + countRunAux params recon refVal (idx + 1) rem
      else 0

/-- `mapRunInterruptionError` (runmode.go). -/
def mapRunInterruptionError (errval ra rb : Int) : Int :=
  if ra ≥ rb then
    if errval ≥ 0 then 2 * errval else 2 * (-errval) - 1
  else
    if errval > 0 then 2 * errval - 1 else 2 * (-errval)

/-- `encodeRunInterruptionSample` (runmode.go). -/
def encodeRunInterruptionSample (params : Params) (cm : ContextModel) (bw : BitWriter)
    (sample ra rb : Int) (runIdx : Nat) : BitWriter × ContextModel :=
  let diff := if ra - rb < 0 then -(ra - rb) else ra - rb
  let ctxIdx : Int := if diff > params.near then 1 else 0
  let predicted := if ra < rb then ra else rb
  let sign : Int := if ra < rb then -1 else 1
  let ctx := getRunContext cm ctxIdx
  let errval := ReduceError ((sample - predicted) * sign) params.range
  let mapped := mapRunInterruptionError errval ra rb
  let k0 := ComputeK ctx LimitK
  let tempA := ctx.A + intShr ctx.N 1
  let k := if runIdx > 0 then k0 - 1 else k0
  let rk : Int := if runIdx < JTableLen then (JTableRK runIdx : Int) else 0
  let limit := max 2 (params.limit - rk - 1)
  let bw1 := EncodeGolomb bw mapped k limit params.qbpp
  let b1 := if errval < 0 then ctx.B + 1 else ctx.B
  let absErr := if errval < 0 then -errval else errval
  let a1 := ctx.A + (absErr - (tempA - ctx.A) / ctx.N)
  let a2 := if ctx.N = params.reset then intShr a1 1 else a1
  let n2 := if ctx.N = params.reset then intShr ctx.N 1 else ctx.N
  let cm1 := setRunContext cm ctxIdx ⟨a2, b1, ctx.C, n2 + 1⟩
  (bw1, decRunIndex cm1)

/-- The segment loop of `encodeRunSegments` (runmode.go); fuel bounds the
iterations, each of which consumes at least one sample. -/
def encodeRunSegmentsLoop : Nat → Params → ContextModel → BitWriter → Int → Int →
    BitWriter × ContextModel
  | 0, _, cm, bw, _, _ => (bw, cm)
  | fuel + 1, params, cm, bw, runLength, lineRemaining =>
      if runLength > 0 then
        let runIdx := min cm.runIndex (JTableLen - 1)
        let rk := JTableRK runIdx
        let segmentSize : Int := 2 ^ rk
        if runLength ≥ segmentSize then
          let bw1 := WriteBit bw 1
          let runLength1 := runLength - segmentSize
          let lineRemaining1 := lineRemaining - segmentSize
          let cm1 := incRunIndex cm
          if runLength1 = 0 then
            if lineRemaining1 = 0 then (bw1, cm1)
            else
              let runIdx2 := min cm1.runIndex (JTableLen - 1)
              let rk2 := JTableRK runIdx2
              let bw2 := WriteBit bw1 0
              let bw3 := if rk2 > 0 then WriteBits bw2 0 (rk2 : Int) else bw2
              (bw3, resetRunIndex cm1)
          else encodeRunSegmentsLoop fuel params cm1 bw1 runLength1 lineRemaining1
        else
          if runLength = lineRemaining then (bw, cm)
          else
            let bw1 := WriteBit bw 0
            let bw2 := if rk > 0 then WriteBits bw1 runLength (rk : Int) else bw1
            (bw2, resetRunIndex cm)
      else (bw, cm)

/-- `encodeRunSegments` (runmode.go). -/
def encodeRunSegments (params : Params) (cm : ContextModel) (bw : BitWriter)
    (runLength remaining : Int) : BitWriter × ContextModel :=
  encodeRunSegmentsLoop runLength.toNat params cm bw runLength remaining

/-- `EncodeRun` (runmode.go): returns the writer, context model, and the
number of samples consumed. -/
def EncodeRun (params : Params) (cm : ContextModel) (bw : BitWriter)
    (recon : List Int) (x y width refVal : Int) : BitWriter × ContextModel × Int :=
  let remaining := width - x
  let startIdx := (y * width + x).toNat
  let runLength : Int := (countRunAux params recon refVal startIdx remaining.toNat : Int)
  let r1 := if runLength > 0 then encodeRunSegments params cm bw runLength remaining
            else (bw, cm)
  let bw1 := r1.1
  let cm1 := r1.2
  if runLength < remaining then
    let interruptIdx := startIdx + runLength.toNat
    let sample := recon.getD interruptIdx 0
    let runIdx := cm1.runIndex
    let rb := if y = 0 then refVal
              else recon.getD ((y - 1) * width + (x + runLength)).toNat 0
    let r2 := encodeRunInterruptionSample params cm1 bw1 sample refVal rb runIdx
    (r2.1, r2.2, runLength + 1)
  else (bw1, cm1, runLength)

/-! ### Regular-mode sample coding and the encode loops (encoder.go). -/

structure EncState where
  bw : BitWriter
  cm : ContextModel
  recon : List Int

/-- `encodeRegularSample` (encoder.go). -/
def encodeRegularSample (params : Params) (width height : Int) (st : EncState)
    (x y a b c g1 g2 g3 : Int) : EncState :=
  let defaultVal := (params.maxVal + 1) / 2
  let actual := ngGet st.recon width height defaultVal x y
  let is := computeContextFromGradients params g1 g2 g3
  let idx := is.1
  let sign := is.2
  let ctx := getContextIdx st.cm idx
  let px0 := Predict a b c
  let px := CorrectPrediction px0 ctx.C sign params.maxVal
  let errval := ReduceError ((actual - px) * sign) params.range
  let mapped := MapErrorValue errval params.near
  let k := ComputeK ctx LimitK
  let bw1 := EncodeGolomb st.bw mapped k params.limit params.qbpp
  let ctx1 := UpdateStatistics ctx errval params.near params.reset
  let cm1 := setContextIdx st.cm idx ctx1
  let reconstructed := ReconstructSample px errval sign params.near params.maxVal
  let recon1 := setPixel st.recon width height x y reconstructed
  ⟨bw1, cm1, recon1⟩

/-- The inner `for x < width` loop of `encodeComponent`; each iteration
consumes at least one sample, so `width.toNat` fuel suffices. -/
def encodeLineLoop (params : Params) (width height y : Int) :
    Nat → Int → EncState → EncState
  | 0, _, st => st
  | fuel + 1, x, st =>
      if x < width then
        let defaultVal := (params.maxVal + 1) / 2
        let nb := getNeighbors st.recon width height defaultVal x y
        let a := nb.1
        let b := nb.2.1
        let c := nb.2.2.1
        let d := nb.2.2.2
        let gs := ComputeGradients a b c d
        if DetectRunMode gs.1 gs.2.1 gs.2.2 ∧ x < width then
          let r := EncodeRun params st.cm st.bw st.recon x y width a
          encodeLineLoop params width height y fuel (x + r.2.2) ⟨r.1, r.2.1, st.recon⟩
        else
          let st1 := encodeRegularSample params width height st x y a b c gs.1 gs.2.1 gs.2.2
          encodeLineLoop params width height y fuel (x + 1) st1
      else st

/-- The row loop of `encodeComponent`: RUNindex resets at the start of every
line. -/
def encodeRowsLoop (params : Params) (width height : Int) :
    Nat → Int → EncState → EncState
  | 0, _, st => st
  | fuel + 1, y, st =>
      if y < height then
        let st1 : EncState := ⟨st.bw, resetRunIndex st.cm, st.recon⟩
        let st2 := encodeLineLoop params width height y width.toNat 0 st1
        encodeRowsLoop params width height fuel (y + 1) st2
      else st

/-- `encodeComponent` (encoder.go): the reconstruction plane starts as a
copy (`make` + `copy`) of the caller's pixels; returns the entropy bytes and
the final reconstruction plane. -/
def encodeComponentFull (params : Params) (width height : Int) (cm0 : ContextModel)
    (pixels : List Int) : List Nat × List Int :=
  let recon := pixels
  let st := encodeRowsLoop params width height height.toNat 0 ⟨emptyBW, cm0, recon⟩
  ((FlushBW st.bw).out, st.recon)

def encodeComponent (params : Params) (width height : Int) (cm0 : ContextModel)
    (pixels : List Int) : List Nat :=
  (encodeComponentFull params width height cm0 pixels).1

/-! ### Sample-interleaved multi-component scan (encoder.go). -/

/-- One component step of `encodeSampleInterleaved`'s innermost loop. -/
def ilvCompStep (params : Params) (width height x y : Int) (bw : BitWriter)
    (entry : ContextModel × List Int) : BitWriter × (ContextModel × List Int) :=
  let cm := if x = 0 then resetRunIndex entry.1 else entry.1
  let defaultVal := (params.maxVal + 1) / 2
  let nb := getNeighbors entry.2 width height defaultVal x y
  let gs := ComputeGradients nb.1 nb.2.1 nb.2.2.1 nb.2.2.2
  let st1 := encodeRegularSample params width height ⟨bw, cm, entry.2⟩ x y
    nb.1 nb.2.1 nb.2.2.1 gs.1 gs.2.1 gs.2.2
  (st1.bw, (st1.cm, st1.recon))

def ilvCompsLoop (params : Params) (width height x y : Int)
    (acc : BitWriter × List (ContextModel × List Int)) :
    BitWriter × List (ContextModel × List Int) :=
  acc.2.foldl
    (fun a e =>
      let r := ilvCompStep params width height x y a.1 e
      (r.1, a.2 ++ [r.2]))
    (acc.1, [])

def ilvXLoop (params : Params) (width height y : Int) :
    Nat → Int → BitWriter × List (ContextModel × List Int) →
    BitWriter × List (ContextModel × List Int)
  | 0, _, s => s
  | fuel + 1, x, s =>
      if x < width then
        ilvXLoop params width height y fuel (x + 1) (ilvCompsLoop params width height x y s)
      else s

def ilvYLoop (params : Params) (width height : Int) :
    Nat → Int → BitWriter × List (ContextModel × List Int) →
    BitWriter × List (ContextModel × List Int)
  | 0, _, s => s
  | fuel + 1, y, s =>
      if y < height then
        ilvYLoop params width height fuel (y + 1) (ilvXLoop params width height y width.toNat 0 s)
      else s

/-- `encodeSampleInterleaved` (encoder.go): per-component reconstruction
planes de-interleaved into fresh slices, per-component context models, all
samples in regular mode.  Returns the entropy bytes and the final
reconstruction planes. -/
def encodeSampleInterleavedFull (params : Params) (width height samples : Int)
    (pixels : List Int) : List Nat × List (List Int) :=
  let componentSize := width * height
  let comps0 : List (ContextModel × List Int) :=
    (List.range samples.toNat).map
      (fun comp =>
        (NewContextModel params,
         (List.range componentSize.toNat).map
           (fun i => pixels.getD ((i : Int) * samples + (comp : Int)).toNat 0)))
  let r := ilvYLoop params width height height.toNat 0 (emptyBW, comps0)
  ((FlushBW r.1).out, r.2.map (fun e => e.2))

def encodeSampleInterleaved (params : Params) (width height samples : Int)
    (pixels : List Int) : List Nat :=
  (encodeSampleInterleavedFull params width height samples pixels).1

/-! ### Marker segments (markers, part of the jpegls package). -/

/-- `byte(x)` on a Go int. -/
def byteOf (x : Int) : Nat := (x.emod 256).toNat

/-- `binary.BigEndian` encoding of `uint16(x)`. -/
def u16be (x : Int) : List Nat := [(x.emod 65536).toNat / 256, (x.emod 256).toNat]

/-- `FrameInfo` (markers). -/
structure FrameInfo where
  width : Int
  height : Int
  bitsPerSample : Int
  componentCount : Int
deriving DecidableEq

/-- `ScanInfo` (markers). -/
structure ScanInfo where
  near : Int
  ilv : Int
  pt : Int
  maxVal : Int
  t1 : Int
  t2 : Int
  t3 : Int
  reset : Int
  usePreset : Bool
deriving DecidableEq

/-- `WriteSOF55` (markers): `FF F7`, length, precision, height, width, Nf,
and one `(id, 0x11, 0)` descriptor per component. -/
def sof55Bytes (fi : FrameInfo) : List Nat :=
  let nf := if fi.componentCount = 0 then 1 else fi.componentCount
  [255, 247] ++ u16be (8 + 3 * nf) ++ [byteOf fi.bitsPerSample] ++
    u16be fi.height ++ u16be fi.width ++ [byteOf nf] ++
    ((List.range nf.toNat).map (fun i => [byteOf ((i : Int) + 1), 17, 0])).flatten

/-- `WriteSOSComponents` (markers): `FF DA`, length, Ns, component
selectors, NEAR, ILV, Pt. -/
def sosBytes (si : ScanInfo) (componentIDs : List Int) : List Nat :=
  let ids := if componentIDs.isEmpty then [1] else componentIDs
  let ns := ids.length
  [255, 218] ++ u16be (6 + 2 * (ns : Int)) ++ [byteOf (ns : Int)] ++
    (ids.map (fun cid => [byteOf cid, 0])).flatten ++
    [byteOf si.near, byteOf si.ilv, byteOf si.pt]

/-- `WriteLSEPreset` (markers). -/
def lsePresetBytes (si : ScanInfo) : List Nat :=
  [255, 248] ++ u16be 13 ++ [1] ++ u16be si.maxVal ++ u16be si.t1 ++ u16be si.t2 ++
    u16be si.t3 ++ u16be si.reset

/-! ### `Encode` (encoder.go): header, entropy-coded scan, trailer. -/

def frameInfoOf (width height samples : Int) (bpp : Nat) : FrameInfo :=
  ⟨width, height, (bpp : Int), samples⟩

def scanInfoOf (params : Params) : ScanInfo :=
  ⟨params.near, 0, 0, params.maxVal, params.t1, params.t2, params.t3, params.reset, false⟩

/-- The header bytes `Encode` emits after SOI: SOF55, the (never enabled)
LSE preset, and the SOS for the single- or sample-interleaved scan. -/
def encodeHeader (width height samples : Int) (bpp : Nat) : List Nat :=
  let params := NewParams bpp 0
  let fi := frameInfoOf width height samples bpp
  let si := scanInfoOf params
  sof55Bytes fi ++ (if si.usePreset then lsePresetBytes si else []) ++
    (if samples = 1 then sosBytes si [1]
     else sosBytes { si with ilv := 2 }
       ((List.range samples.toNat).map (fun i => (i : Int) + 1)))

/-- The entropy-coded bytes `Encode` emits between SOS and EOI. -/
def encodeScan (width height samples : Int) (bpp : Nat) (pixels : List Int) : List Nat :=
  let params := NewParams bpp 0
  if samples = 1 then encodeComponent params width height (NewContextModel params) pixels
  else encodeSampleInterleaved params width height samples pixels

/-- `Encode` (encoder.go): pixel-count check, then
SOI ++ SOF55 ++ (LSE) ++ SOS ++ scan ++ EOI. -/
def Encode (width height samples : Int) (bpp : Nat) (pixels : List Int) :
    Option (List Nat) :=
  if (pixels.length : Int) ≠ width * height * samples then none
  else
    some ([255, 216] ++ encodeHeader width height samples bpp ++
      encodeScan width height samples bpp pixels ++ [255, 217])

/-- `EncodeGrayscale` (encoder.go): 8-bit bytes converted to a fresh int
slice, then `Encode` with one component. -/
def EncodeGrayscale (pixels : List Nat) (width height : Int) : Option (List Nat) :=
  Encode width height 1 8 (pixels.map (fun p => (p : Int)))

/-- `EncodeGrayscale16` (encoder.go). -/
def EncodeGrayscale16 (pixels : List Nat) (width height : Int) (bpp : Nat) :
    Option (List Nat) :=
  Encode width height 1 bpp (pixels.map (fun p => (p : Int)))

/-- `EncodeFromBytes` (encoder.go): length validation, then byte-to-int
conversion (little-endian pairs for 16-bit) into a fresh slice. -/
def EncodeFromBytes (data : List Nat) (width height samples : Int) (bpp : Nat) :
    Option (List Nat) :=
  let bytesPerSample : Int := ((bpp : Int) + 7) / 8
  let expectedLen := width * height * samples * bytesPerSample
  if (data.length : Int) ≠ expectedLen then none
  else
    let pixelCount := width * height * samples
    let intPixels : List Int :=
      if bytesPerSample = 1 then
        (List.range pixelCount.toNat).map (fun i => (data.getD i 0 : Int))
      else
        (List.range pixelCount.toNat).map
          (fun i => (data.getD (i * 2) 0 : Int) + (data.getD (i * 2 + 1) 0 : Int) * 256)
    Encode width height samples bpp intPixels

/-! ### Claim C8 -/

/-- The threshold formula as the spec words it (claim C8): addends
`factor/256`, `factor/64`, `factor/16` for `MAXVAL ≥ 128` and
`(MAXVAL+1)/16`, `(MAXVAL+1)/8`, `(MAXVAL+1)/4` for smaller `MAXVAL`. -/
def specThresholds (maxVal near : Int) : Int × Int × Int :=
  let factor := min maxVal 4095
  if maxVal ≥ 128 then
    let t1 := clamp (near + 1 + factor / 256) (near + 1) maxVal
    let t2 := clamp (near + 1 + factor / 64) t1 maxVal
    let t3 := clamp (near + 1 + factor / 16) t2 maxVal
    (t1, t2, t3)
  else
    let t1 := clamp (near + 1 + (maxVal + 1) / 16) (near + 1) maxVal
    let t2 := clamp (near + 1 + (maxVal + 1) / 8) t1 maxVal
    let t3 := clamp (near + 1 + (maxVal + 1) / 4) t2 maxVal
    (t1, t2, t3)

/-- The spec formula amended as the counterexample forces: the small-MAXVAL
addends carry the code's `max (…, 1)` floor. -/
def specThresholdsAmended (maxVal near : Int) : Int × Int × Int :=
  let factor := min maxVal 4095
  if maxVal ≥ 128 then
    let t1 := clamp (near + 1 + factor / 256) (near + 1) maxVal
    let t2 := clamp (near + 1 + factor / 64) t1 maxVal
    let t3 := clamp (near + 1 + factor / 16) t2 maxVal
    (t1, t2, t3)
  else
    let t1 := clamp (near + 1 + max ((maxVal + 1) / 16) 1) (near + 1) maxVal
    let t2 := clamp (near + 1 + max ((maxVal + 1) / 8) 1) t1 maxVal
    let t3 := clamp (near + 1 + max ((maxVal + 1) / 4) 1) t2 maxVal
    (t1, t2, t3)

/-- C8 (corrected).  For NEAR = 0 the encoder's thresholds follow the
claim's clamp structure with `factor = min(MAXVAL, 4095)` for
`MAXVAL ≥ 128`; for `MAXVAL < 128` the addends are
`max((MAXVAL+1)/2^s, 1)` — the code floors each addend at 1, which the
frozen claim omits (see the counterexample at MAXVAL = 3). -/
theorem calculateThresholds_spec (maxVal : Int) :
    calculateThresholds maxVal 0 = specThresholdsAmended maxVal 0 := by
  unfold calculateThresholds specThresholdsAmended
  have hf : (if maxVal > 4095 then 4095 else maxVal) = min maxVal 4095 := by
    by_cases h : maxVal > 4095
    · simp [h, min_def]
      omega
    · simp [h, min_def]
      omega
  rw [hf]

/-- Counterexample to C8 as frozen: at MAXVAL = 3 (2-bit samples) the code
yields T1 = 2 while the claim's formula yields 1. -/
theorem calculateThresholds_cex :
    (calculateThresholds 3 0).1 = 2 ∧ (specThresholds 3 0).1 = 1 := by decide

/-! ### Claim C7 -/

/-- `encodeRunInterruptionSample` as the frozen claim describes it: identical
to the source except that the Golomb parameter `k` is computed from the run
context with the temporary accumulator `A + N/2`.  For comparison only. -/
def encodeRunInterruptionSampleSpecK (params : Params) (cm : ContextModel)
    (bw : BitWriter) (sample ra rb : Int) (runIdx : Nat) : BitWriter × ContextModel :=
  let diff := if ra - rb < 0 then -(ra - rb) else ra - rb
  let ctxIdx : Int := if diff > params.near then 1 else 0
  let predicted := if ra < rb then ra else rb
  let sign : Int := if ra < rb then -1 else 1
  let ctx := getRunContext cm ctxIdx
  let errval := ReduceError ((sample - predicted) * sign) params.range
  let mapped := mapRunInterruptionError errval ra rb
  let tempA := ctx.A + intShr ctx.N 1
  let k0 := ComputeK ⟨tempA, ctx.B, ctx.C, ctx.N⟩ LimitK
  let k := if runIdx > 0 then k0 - 1 else k0
  let rk : Int := if runIdx < JTableLen then (JTableRK runIdx : Int) else 0
  let limit := max 2 (params.limit - rk - 1)
  let bw1 := EncodeGolomb bw mapped k limit params.qbpp
  let b1 := if errval < 0 then ctx.B + 1 else ctx.B
  let absErr := if errval < 0 then -errval else errval
  let a1 := ctx.A + (absErr - (tempA - ctx.A) / ctx.N)
  let a2 := if ctx.N = params.reset then intShr a1 1 else a1
  let n2 := if ctx.N = params.reset then intShr ctx.N 1 else ctx.N
  let cm1 := setRunContext cm ctxIdx ⟨a2, b1, ctx.C, n2 + 1⟩
  (bw1, decRunIndex cm1)

/-- The run-interruption context index: 0 iff `|Ra − Rb| ≤ NEAR`. -/
def riCtxIdx (params : Params) (ra rb : Int) : Int :=
  if (if ra - rb < 0 then -(ra - rb) else ra - rb) > params.near then 1 else 0

/-- The run-interruption predictor (`Rb`, or `Ra` when `Ra < Rb`). -/
def riPredicted (ra rb : Int) : Int := if ra < rb then ra else rb

/-- The run-interruption sign. -/
def riSign (ra rb : Int) : Int := if ra < rb then -1 else 1

/-- The Golomb parameter the source uses for a run interruption: `ComputeK`
on the run context's `A` and `N` directly, decremented (floored at 0) when
RUNindex is positive. -/
def riK (ctx : Context) (runIdx : Nat) : Nat :=
  if runIdx > 0 then ComputeK ctx LimitK - 1 else ComputeK ctx LimitK

/-- The limited length used for a run interruption:
`max 2 (LIMIT − J[RUNindex].rk − 1)`. -/
def riLimit (params : Params) (runIdx : Nat) : Int :=
  max 2 (params.limit - (if runIdx < JTableLen then (JTableRK runIdx : Int) else 0) - 1)

/-- C7 (corrected).  When encoding a run-interruption sample the bits
emitted are a Golomb encoding of the mapped reduced error with parameter
`k = riK` — computed from the run context's `A` and `N` directly (the
temporary accumulator `A + N/2` enters only the statistics update), then
decremented by one (floored at 0) whenever RUNindex > 0 — and with limit
`max(2, LIMIT − J[RUNindex].rk − 1)`.  The frozen claim's "k is computed …
using the temporary accumulator A + N/2" is refuted by the counterexample. -/
theorem encodeRunInterruptionSample_golomb (params : Params) (cm : ContextModel)
    (bw : BitWriter) (sample ra rb : Int) (runIdx : Nat) :
    (encodeRunInterruptionSample params cm bw sample ra rb runIdx).1 =
      EncodeGolomb bw
        (mapRunInterruptionError
          (ReduceError ((sample - riPredicted ra rb) * riSign ra rb) params.range) ra rb)
        (riK (getRunContext cm (riCtxIdx params ra rb)) runIdx)
        (riLimit params runIdx) params.qbpp := rfl

def c7params : Params := NewParams 8 0

def c7state1 : BitWriter × ContextModel :=
  encodeRunInterruptionSample c7params (NewContextModel c7params) emptyBW 4 128 128 0

/-- Counterexample to C7 as frozen: after one run interruption from the
initial 8-bit state the run context holds `A = 128`, `N = 2`; the source
computes `k = 6` from `(A, N)` while the claim's `A + N/2` accumulator gives
`k = 7`, and the two emit different bit streams for the next interruption
sample. -/
theorem encodeRunInterruptionSample_specK_cex :
    ComputeK (getRunContext c7state1.2 0) LimitK = 6 ∧
    ComputeK ⟨(getRunContext c7state1.2 0).A + intShr (getRunContext c7state1.2 0).N 1,
      (getRunContext c7state1.2 0).B, (getRunContext c7state1.2 0).C,
      (getRunContext c7state1.2 0).N⟩ LimitK = 7 ∧
    (FlushBW (encodeRunInterruptionSample c7params c7state1.2 c7state1.1
        192 128 128 0).1).out ≠
      (FlushBW (encodeRunInterruptionSampleSpecK c7params c7state1.2 c7state1.1
        192 128 128 0).1).out := by
  refine ⟨by decide, by decide, by decide⟩

/-! ### Claim C10 -/

/-- A Go slice heap: slot index → slice contents.  `EncodeGo` is `Encode`
with the caller's pixel slice held in slot `pid`: the `make`+`copy`
reconstruction plane of `encodeComponent` (resp. the fresh de-interleaved
planes of `encodeSampleInterleaved`) are new slots appended to the heap, and
every `SetPixel` write during encoding acts on that threaded plane — the
final contents of the fresh slots — never through slot `pid`. -/
def EncodeGo (heap : List (List Int)) (pid : Nat) (width height samples : Int)
    (bpp : Nat) : List (List Int) × Option (List Nat) :=
  let pixels := heap.getD pid []
  if (pixels.length : Int) ≠ width * height * samples then (heap, none)
  else if samples = 1 then
    let params := NewParams bpp 0
    let r := encodeComponentFull params width height (NewContextModel params) pixels
    (heap ++ [r.2], Encode width height samples bpp pixels)
  else
    let params := NewParams bpp 0
    let r := encodeSampleInterleavedFull params width height samples pixels
    (heap ++ r.2, Encode width height samples bpp pixels)

/-- `EncodeFromBytes` over a heap of byte slices: the conversion loop reads
the caller's bytes into a fresh int slice and never writes a byte slice, so
the byte heap passes through unchanged. -/
def EncodeFromBytesGo (bheap : List (List Nat)) (pid : Nat)
    (width height samples : Int) (bpp : Nat) : List (List Nat) × Option (List Nat) :=
  (bheap, EncodeFromBytes (bheap.getD pid []) width height samples bpp)

/-- C10 (confirmed).  Encoding leaves the caller's buffer unchanged: after
`EncodeGo`, slot `pid` — and every pre-existing slot — holds exactly what it
held before, the output agrees with the pure `Encode` of the slot's
contents, and the byte-slice wrapper `EncodeFromBytesGo` leaves its heap
untouched; the sample reconstruction happens on the appended fresh slots. -/
theorem encode_preserves_input (heap : List (List Int)) (bheap : List (List Nat))
    (pid : Nat) (width height samples : Int) (bpp : Nat) (h : pid < heap.length) :
    (EncodeGo heap pid width height samples bpp).1.getD pid [] = heap.getD pid [] ∧
    (EncodeGo heap pid width height samples bpp).1.take heap.length = heap ∧
    (EncodeGo heap pid width height samples bpp).2 =
      Encode width height samples bpp (heap.getD pid []) ∧
    (EncodeFromBytesGo bheap pid width height samples bpp).1 = bheap := by
  unfold EncodeGo
  by_cases hlen : ((heap.getD pid []).length : Int) ≠ width * height * samples
  · rw [if_pos hlen]
    refine ⟨rfl, List.take_length heap, ?_, rfl⟩
    unfold Encode
    rw [if_pos hlen]
  · rw [if_neg hlen]
    by_cases hs : samples = 1
    · rw [if_pos hs]
      dsimp only
      refine ⟨?_, ?_, rfl, rfl⟩
      · rw [List.getD_eq_getElem?_getD, List.getElem?_append_left h,
          ← List.getD_eq_getElem?_getD]
      · exact List.take_left heap _
    · rw [if_neg hs]
      dsimp only
      refine ⟨?_, ?_, rfl, rfl⟩
      · rw [List.getD_eq_getElem?_getD, List.getElem?_append_left h,
          ← List.getD_eq_getElem?_getD]
      · exact List.take_left heap _

/-- Closed witness for C10's theorem at a concrete one-pixel image. -/
theorem encode_preserves_input_witness :
    (EncodeGo [[7]] 0 1 1 1 8).1.getD 0 [] = [[7]].getD 0 [] ∧
    (EncodeGo [[7]] 0 1 1 1 8).1.take 1 = [[7]] ∧
    (EncodeGo [[7]] 0 1 1 1 8).2 = Encode 1 1 1 8 ([[7]].getD 0 []) ∧
    (EncodeFromBytesGo [[7]] 0 1 1 1 8).1 = [[7]] :=
  encode_preserves_input [[7]] [[7]] 0 1 1 1 8 (by decide)

/-! ### Claim C9 — byte-stuffing invariant and marker counting.

`noFF l` says every `0xFF` byte in `l` is immediately followed by a `0x00`
(in particular `l` does not end in `0xFF`): the invariant the bit writer's
stuffing maintains on the entropy-coded segment. -/

def noFF : List Nat → Prop
  | [] => True
  | [b] => b ≠ 255
  | b :: c :: rest => (b = 255 → c = 0) ∧ noFF (c :: rest)

theorem noFF_append_single : ∀ (l : List Nat) (b : Nat), noFF l → b ≠ 255 → noFF (l ++ [b])
  | [], b, _, hb => hb
  | [a], b, ha, hb => ⟨fun h255 => absurd h255 ha, hb⟩
  | a :: c :: t, b, ⟨h1, h2⟩, hb => ⟨h1, noFF_append_single (c :: t) b h2 hb⟩

theorem noFF_append_ff0 : ∀ (l : List Nat), noFF l → noFF (l ++ [255, 0])
  | [], _ => ⟨fun _ => rfl, by unfold noFF; decide⟩
  | [a], ha => ⟨fun h => absurd h ha, fun _ => rfl, by unfold noFF; decide⟩
  | a :: c :: t, ⟨h1, h2⟩ => ⟨h1, noFF_append_ff0 (c :: t) h2⟩

theorem noFF_getLast : ∀ (l : List Nat), noFF l → l.getLast? ≠ some 255
  | [], _ => by simp
  | [a], ha => by simpa using ha
  | a :: c :: t, ⟨h1, h2⟩ => by
      have := noFF_getLast (c :: t) h2
      simpa [List.getLast?_cons_cons] using this

theorem flushByte_noFF (bw : BitWriter) (h : noFF bw.out) : noFF (flushByte bw).out := by
  unfold flushByte
  by_cases hc : bw.bitCount < 8
  · rw [if_pos hc]
    exact h
  · rw [if_neg hc]
    dsimp only
    by_cases hb : (bw.bitBuf >>> (bw.bitCount - 8)) % 256 = 255
    · rw [if_pos hb, hb]
      have : bw.out ++ [255] ++ [0] = bw.out ++ [255, 0] := by simp
      rw [this]
      exact noFF_append_ff0 _ h
    · rw [if_neg hb]
      exact noFF_append_single _ _ h hb

theorem writeBit_noFF (bw : BitWriter) (bit : Int) (h : noFF bw.out) :
    noFF (WriteBit bw bit).out := by
  unfold WriteBit
  dsimp only
  by_cases hc : bw.bitCount + 1 ≥ 8
  · rw [if_pos hc]
    exact flushByte_noFF _ h
  · rw [if_neg hc]
    exact h

theorem foldl_writeBit_noFF (g : Nat → Int) :
    ∀ (l : List Nat) (bw : BitWriter), noFF bw.out →
      noFF (l.foldl (fun w i => WriteBit w (g i)) bw).out
  | [], _, h => h
  | i :: t, bw, h => foldl_writeBit_noFF g t (WriteBit bw (g i)) (writeBit_noFF bw (g i) h)

theorem writeBits_noFF (bw : BitWriter) (val n : Int) (h : noFF bw.out) :
    noFF (WriteBits bw val n).out := by
  unfold WriteBits
  by_cases hn : n ≤ 0
  · rw [if_pos hn]
    exact h
  · rw [if_neg hn]
    exact foldl_writeBit_noFF (fun i => intShr val i % 2) _ bw h

theorem writeUnary_noFF (bw : BitWriter) (n : Int) (h : noFF bw.out) :
    noFF (WriteUnary bw n).out := by
  unfold WriteUnary
  dsimp only
  apply writeBit_noFF
  exact foldl_writeBit_noFF (fun _ => 0) _ bw h

theorem encodeGolomb_noFF (bw : BitWriter) (mapped : Int) (k : Nat) (limit qbpp : Int)
    (h : noFF bw.out) : noFF (EncodeGolomb bw mapped k limit qbpp).out := by
  unfold EncodeGolomb
  dsimp only
  by_cases hq : intShr mapped k < limit - qbpp - 1
  · rw [if_pos hq]
    by_cases hk : k > 0
    · rw [if_pos hk]
      exact writeBits_noFF _ _ _ (writeUnary_noFF bw _ h)
    · rw [if_neg hk]
      exact writeUnary_noFF bw _ h
  · rw [if_neg hq]
    exact writeBits_noFF _ _ _ (writeUnary_noFF bw _ h)

theorem padLoop_noFF : ∀ (fuel : Nat) (bw : BitWriter), noFF bw.out →
    noFF (padLoop fuel bw).out
  | 0, _, h => h
  | fuel + 1, bw, h => by
      unfold padLoop
      by_cases hc : 0 < bw.bitCount ∧ bw.bitCount < 8
      · rw [if_pos hc]
        exact padLoop_noFF fuel _ (writeBit_noFF bw 1 h)
      · rw [if_neg hc]
        exact h

theorem flushBW_noFF (bw : BitWriter) (h : noFF bw.out) : noFF (FlushBW bw).out :=
  padLoop_noFF 8 bw h

theorem encodeRegularSample_noFF (params : Params) (width height : Int) (st : EncState)
    (x y a b c g1 g2 g3 : Int) (h : noFF st.bw.out) :
    noFF (encodeRegularSample params width height st x y a b c g1 g2 g3).bw.out := by
  unfold encodeRegularSample
  dsimp only
  exact encodeGolomb_noFF _ _ _ _ _ h

theorem encodeRunInterruptionSample_noFF (params : Params) (cm : ContextModel)
    (bw : BitWriter) (sample ra rb : Int) (runIdx : Nat) (h : noFF bw.out) :
    noFF (encodeRunInterruptionSample params cm bw sample ra rb runIdx).1.out := by
  unfold encodeRunInterruptionSample
  dsimp only
  exact encodeGolomb_noFF _ _ _ _ _ h

theorem encodeRunSegmentsLoop_noFF :
    ∀ (fuel : Nat) (params : Params) (cm : ContextModel) (bw : BitWriter)
      (runLength lineRemaining : Int), noFF bw.out →
      noFF (encodeRunSegmentsLoop fuel params cm bw runLength lineRemaining).1.out
  | 0, _, _, _, _, _, h => h
  | fuel + 1, params, cm, bw, runLength, lineRemaining, h => by
      unfold encodeRunSegmentsLoop
      dsimp only
      by_cases h0 : runLength > 0
      · rw [if_pos h0]
        by_cases h1 : runLength ≥ (2 ^ JTableRK (min cm.runIndex (JTableLen - 1)) : Int)
        · rw [if_pos h1]
          by_cases h2 : runLength - (2 ^ JTableRK (min cm.runIndex (JTableLen - 1)) : Int) = 0
          · rw [if_pos h2]
            by_cases h3 : lineRemaining - (2 ^ JTableRK (min cm.runIndex (JTableLen - 1)) : Int) = 0
            · rw [if_pos h3]
              exact writeBit_noFF bw 1 h
            · rw [if_neg h3]
              dsimp only
              by_cases h4 : JTableRK (min (incRunIndex cm).runIndex (JTableLen - 1)) > 0
              · rw [if_pos h4]
                exact writeBits_noFF _ _ _ (writeBit_noFF _ 0 (writeBit_noFF bw 1 h))
              · rw [if_neg h4]
                exact writeBit_noFF _ 0 (writeBit_noFF bw 1 h)
          · rw [if_neg h2]
            exact encodeRunSegmentsLoop_noFF fuel params _ _ _ _ (writeBit_noFF bw 1 h)
        · rw [if_neg h1]
          by_cases h2 : runLength = lineRemaining
          · rw [if_pos h2]
            exact h
          · rw [if_neg h2]
            dsimp only
            by_cases h3 : JTableRK (min cm.runIndex (JTableLen - 1)) > 0
            · rw [if_pos h3]
              exact writeBits_noFF _ _ _ (writeBit_noFF bw 0 h)
            · rw [if_neg h3]
              exact writeBit_noFF bw 0 h
      · rw [if_neg h0]
        exact h

theorem encodeRun_noFF (params : Params) (cm : ContextModel) (bw : BitWriter)
    (recon : List Int) (x y width refVal : Int) (h : noFF bw.out) :
    noFF (EncodeRun params cm bw recon x y width refVal).1.out := by
  unfold EncodeRun
  dsimp only
  set runLength : Int :=
    (countRunAux params recon refVal ((y * width + x).toNat) (width - x).toNat : Int) with hrl
  have hseg : noFF (if runLength > 0 then
      encodeRunSegments params cm bw runLength (width - x) else (bw, cm)).1.out := by
    by_cases h0 : runLength > 0
    · rw [if_pos h0]
      exact encodeRunSegmentsLoop_noFF _ params cm bw _ _ h
    · rw [if_neg h0]
      exact h
  by_cases h1 : runLength < width - x
  · rw [if_pos h1]
    exact encodeRunInterruptionSample_noFF params _ _ _ _ _ _ hseg
  · rw [if_neg h1]
    exact hseg

theorem encodeLineLoop_noFF (params : Params) (width height y : Int) :
    ∀ (fuel : Nat) (x : Int) (st : EncState), noFF st.bw.out →
      noFF (encodeLineLoop params width height y fuel x st).bw.out
  | 0, _, _, h => h
  | fuel + 1, x, st, h => by
      unfold encodeLineLoop
      by_cases hx : x < width
      · rw [if_pos hx]
        dsimp only
        split
        · exact encodeLineLoop_noFF params width height y fuel _ _
            (encodeRun_noFF params st.cm st.bw st.recon x y width _ h)
        · exact encodeLineLoop_noFF params width height y fuel _ _
            (encodeRegularSample_noFF params width height st x y _ _ _ _ _ _ h)
      · rw [if_neg hx]
        exact h

theorem encodeRowsLoop_noFF (params : Params) (width height : Int) :
    ∀ (fuel : Nat) (y : Int) (st : EncState), noFF st.bw.out →
      noFF (encodeRowsLoop params width height fuel y st).bw.out
  | 0, _, _, h => h
  | fuel + 1, y, st, h => by
      unfold encodeRowsLoop
      by_cases hy : y < height
      · rw [if_pos hy]
        exact encodeRowsLoop_noFF params width height fuel _ _
          (encodeLineLoop_noFF params width height y width.toNat 0 _ h)
      · rw [if_neg hy]
        exact h

theorem encodeComponent_noFF (params : Params) (width height : Int)
    (cm0 : ContextModel) (pixels : List Int) :
    noFF (encodeComponent params width height cm0 pixels) := by
  unfold encodeComponent encodeComponentFull
  dsimp only
  apply flushBW_noFF
  exact encodeRowsLoop_noFF params width height height.toNat 0 _ trivial

theorem ilvCompStep_noFF (params : Params) (width height x y : Int) (bw : BitWriter)
    (entry : ContextModel × List Int) (h : noFF bw.out) :
    noFF (ilvCompStep params width height x y bw entry).1.out := by
  unfold ilvCompStep
  dsimp only
  exact encodeRegularSample_noFF params width height _ x y _ _ _ _ _ _ h

theorem ilvFold_noFF (params : Params) (width height x y : Int) :
    ∀ (l : List (ContextModel × List Int)) (bw : BitWriter)
      (lst : List (ContextModel × List Int)), noFF bw.out →
      noFF ((l.foldl
        (fun a e =>
          let r := ilvCompStep params width height x y a.1 e
          (r.1, a.2 ++ [r.2])) (bw, lst)).1.out)
  | [], _, _, h => h
  | e :: t, bw, lst, h => by
      rw [List.foldl_cons]
      exact ilvFold_noFF params width height x y t _ _
        (ilvCompStep_noFF params width height x y bw e h)

theorem ilvCompsLoop_noFF (params : Params) (width height x y : Int)
    (acc : BitWriter × List (ContextModel × List Int)) (h : noFF acc.1.out) :
    noFF (ilvCompsLoop params width height x y acc).1.out := by
  unfold ilvCompsLoop
  exact ilvFold_noFF params width height x y acc.2 acc.1 [] h

theorem ilvXLoop_noFF (params : Params) (width height y : Int) :
    ∀ (fuel : Nat) (x : Int) (s : BitWriter × List (ContextModel × List Int)),
      noFF s.1.out → noFF (ilvXLoop params width height y fuel x s).1.out
  | 0, _, _, h => h
  | fuel + 1, x, s, h => by
      unfold ilvXLoop
      by_cases hx : x < width
      · rw [if_pos hx]
        exact ilvXLoop_noFF params width height y fuel _ _
          (ilvCompsLoop_noFF params width height x y s h)
      · rw [if_neg hx]
        exact h

theorem ilvYLoop_noFF (params : Params) (width height : Int) :
    ∀ (fuel : Nat) (y : Int) (s : BitWriter × List (ContextModel × List Int)),
      noFF s.1.out → noFF (ilvYLoop params width height fuel y s).1.out
  | 0, _, _, h => h
  | fuel + 1, y, s, h => by
      unfold ilvYLoop
      by_cases hy : y < height
      · rw [if_pos hy]
        exact ilvYLoop_noFF params width height fuel _ _
          (ilvXLoop_noFF params width height y width.toNat 0 s h)
      · rw [if_neg hy]
        exact h

theorem encodeSampleInterleaved_noFF (params : Params) (width height samples : Int)
    (pixels : List Int) :
    noFF (encodeSampleInterleaved params width height samples pixels) := by
  unfold encodeSampleInterleaved encodeSampleInterleavedFull
  dsimp only
  apply flushBW_noFF
  exact ilvYLoop_noFF params width height height.toNat 0 _ trivial

theorem encodeScan_noFF (width height samples : Int) (bpp : Nat) (pixels : List Int) :
    noFF (encodeScan width height samples bpp pixels) := by
  unfold encodeScan
  dsimp only
  by_cases hs : samples = 1
  · rw [if_pos hs]
    exact encodeComponent_noFF _ width height _ pixels
  · rw [if_neg hs]
    exact encodeSampleInterleaved_noFF _ width height samples pixels

/-- Number of adjacent byte pairs `(0xFF, x)` in a byte list: occurrences of
the two-byte marker `FF x`. -/
def countFF (x : Nat) : List Nat → Nat
  | [] => 0
  | [_] => 0
  | a :: b :: rest => (if a = 255 ∧ b = x then 1 else 0) + countFF x (b :: rest)

theorem countFF_append (x : Nat) :
    ∀ (l1 l2 : List Nat),
      countFF x (l1 ++ l2) =
        countFF x l1 + countFF x l2 +
          (if l1.getLast? = some 255 ∧ l2.head? = some x then 1 else 0)
  | [], l2 => by simp [countFF]
  | [a], l2 => by
      cases l2 with
      | nil => simp [countFF]
      | cons b t =>
          have hL : countFF x (a :: b :: t) =
              (if a = 255 ∧ b = x then 1 else 0) + countFF x (b :: t) := rfl
          have h1 : countFF x [a] = 0 := rfl
          have h3 : ([a] : List Nat).getLast? = some a := rfl
          have h4 : (b :: t).head? = some b := rfl
          show countFF x (a :: b :: t) = _
          rw [hL, h1, h3, h4]
          by_cases hab : a = 255 ∧ b = x
          · rw [if_pos hab, if_pos (by simp [hab.1, hab.2])]
            omega
          · rw [if_neg hab, if_neg (by
              rintro ⟨hx1, hx2⟩
              exact hab ⟨Option.some.inj hx1, Option.some.inj hx2⟩)]
            omega
  | a :: c :: t, l2 => by
      have ih := countFF_append x (c :: t) l2
      show countFF x (a :: c :: (t ++ l2)) = _
      rw [countFF]
      have hsh : c :: (t ++ l2) = (c :: t) ++ l2 := rfl
      rw [hsh, ih, countFF]
      have hlast : (a :: c :: t).getLast? = (c :: t).getLast? := List.getLast?_cons_cons
      rw [hlast]
      omega

theorem countFF_append_ge_left (x : Nat) (l1 l2 : List Nat) :
    countFF x l1 ≤ countFF x (l1 ++ l2) := by
  rw [countFF_append]
  omega

theorem countFF_append_ge_right (x : Nat) (l1 l2 : List Nat) :
    countFF x l2 ≤ countFF x (l1 ++ l2) := by
  rw [countFF_append]
  omega

theorem noFF_countFF : ∀ (l : List Nat) (x : Nat), noFF l → x ≠ 0 → countFF x l = 0
  | [], _, _, _ => rfl
  | [_], _, _, _ => rfl
  | a :: c :: t, x, ⟨h1, h2⟩, hx => by
      rw [countFF]
      have hrec := noFF_countFF (c :: t) x h2 hx
      have hac : ¬ (a = 255 ∧ c = x) := by
        rintro ⟨ha, hc⟩
        exact hx (hc.symm.trans (h1 ha))
      rw [if_neg hac, hrec]

/-- The scan header ends in the point-transform byte, which `Encode` fixes
at 0. -/
theorem sosBytes_getLast (si : ScanInfo) (ids : List Int) :
    (sosBytes si ids).getLast? = some (byteOf si.pt) := by
  unfold sosBytes
  dsimp only
  rw [List.getLast?_append, List.getLast?_append, List.getLast?_append,
    List.getLast?_append]
  rfl

theorem encodeHeader_getLast (width height samples : Int) (bpp : Nat) :
    (encodeHeader width height samples bpp).getLast? = some 0 := by
  unfold encodeHeader
  dsimp only
  rw [List.getLast?_append, List.getLast?_append]
  by_cases hs : samples = 1
  · rw [if_pos hs, sosBytes_getLast]
    rfl
  · rw [if_neg hs, sosBytes_getLast]
    rfl

/-- The SOS marker contributes an `FF DA` pair to the header. -/
theorem sosBytes_countDA (si : ScanInfo) (ids : List Int) :
    1 ≤ countFF 218 (sosBytes si ids) := by
  unfold sosBytes
  dsimp only
  simp only [List.cons_append, List.nil_append]
  rw [countFF]
  simp

theorem encodeHeader_countDA (width height samples : Int) (bpp : Nat) :
    1 ≤ countFF 218 (encodeHeader width height samples bpp) := by
  unfold encodeHeader
  dsimp only
  by_cases hs : samples = 1
  · rw [if_pos hs]
    exact le_trans (sosBytes_countDA _ _) (countFF_append_ge_right 218 _ _)
  · rw [if_neg hs]
    exact le_trans (sosBytes_countDA _ _) (countFF_append_ge_right 218 _ _)

/-- The SOF55 marker contributes an `FF F7` pair to the header. -/
theorem sof55Bytes_countF7 (fi : FrameInfo) : 1 ≤ countFF 247 (sof55Bytes fi) := by
  unfold sof55Bytes
  dsimp only
  simp only [List.cons_append, List.nil_append]
  rw [countFF]
  simp

theorem encodeHeader_countF7 (width height samples : Int) (bpp : Nat) :
    1 ≤ countFF 247 (encodeHeader width height samples bpp) := by
  unfold encodeHeader
  dsimp only
  exact le_trans (le_trans (sof55Bytes_countF7 _) (countFF_append_ge_left 247 _ _))
    (countFF_append_ge_left 247 _ _)

theorem encodeHeader_countF7_ge_sof (width height samples : Int) (bpp : Nat) :
    countFF 247 (sof55Bytes (frameInfoOf width height samples bpp)) ≤
      countFF 247 (encodeHeader width height samples bpp) := by
  unfold encodeHeader
  dsimp only
  exact le_trans (countFF_append_ge_left 247 _ _) (countFF_append_ge_left 247 _ _)

/-- C9 (corrected).  Every successful encode begins with `FF D8`, ends with
`FF D9`, and contains at least one `FF F7` and at least one `FF DA`; the
`FF F7` count is exactly one whenever the frame/scan header itself contains
exactly one `FF F7` pair (the SOF55 marker) — true for ordinary dimensions
but violated when the big-endian height/width bytes happen to spell another
`FF F7`, as the counterexample shows, so the frozen claim's unconditional
"exactly one" fails. -/
theorem encode_marker_structure (width height samples : Int) (bpp : Nat)
    (pixels : List Int) (out : List Nat)
    (hout : Encode width height samples bpp pixels = some out) :
    out.take 2 = [255, 216] ∧
    (∃ pre, out = pre ++ [255, 217]) ∧
    1 ≤ countFF 247 out ∧
    1 ≤ countFF 218 out ∧
    (countFF 247 (encodeHeader width height samples bpp) = 1 → countFF 247 out = 1) := by
  have hform : out = [255, 216] ++ encodeHeader width height samples bpp ++
      encodeScan width height samples bpp pixels ++ [255, 217] := by
    unfold Encode at hout
    by_cases hg : (pixels.length : Int) ≠ width * height * samples
    · rw [if_pos hg] at hout
      exact Option.noConfusion hout
    · rw [if_neg hg] at hout
      exact (Option.some.inj hout).symm
  subst hform
  refine ⟨rfl, ⟨[255, 216] ++ encodeHeader width height samples bpp ++
    encodeScan width height samples bpp pixels, rfl⟩, ?_, ?_, ?_⟩
  · exact le_trans (le_trans (le_trans (encodeHeader_countF7 width height samples bpp)
      (countFF_append_ge_right 247 [255, 216] _)) (countFF_append_ge_left 247 _ _))
      (countFF_append_ge_left 247 _ _)
  · exact le_trans (le_trans (le_trans (encodeHeader_countDA width height samples bpp)
      (countFF_append_ge_right 218 [255, 216] _)) (countFF_append_ge_left 218 _ _))
      (countFF_append_ge_left 218 _ _)
  · intro hH
    have hS := encodeScan_noFF width height samples bpp pixels
    have hcS : countFF 247 (encodeScan width height samples bpp pixels) = 0 :=
      noFF_countFF _ 247 hS (by decide)
    have hsoiH : (([255, 216] ++ encodeHeader width height samples bpp) :
        List Nat).getLast? = some 0 := by
      rw [List.getLast?_append, encodeHeader_getLast]
      rfl
    have hb1 : ¬ (([255, 216] : List Nat).getLast? = some 255 ∧
        (encodeHeader width height samples bpp).head? = some 247) := by
      rintro ⟨hx, _⟩
      simp at hx
    have hb2 : ¬ ((([255, 216] ++ encodeHeader width height samples bpp) :
        List Nat).getLast? = some 255 ∧
        (encodeScan width height samples bpp pixels).head? = some 247) := by
      rintro ⟨hx, _⟩
      rw [hsoiH] at hx
      exact absurd (Option.some.inj hx) (by decide)
    have hb3 : ¬ ((([255, 216] ++ encodeHeader width height samples bpp ++
        encodeScan width height samples bpp pixels) : List Nat).getLast? = some 255 ∧
        (([255, 217] : List Nat).head? = some 247)) := by
      rintro ⟨_, hx⟩
      exact absurd (Option.some.inj hx) (by decide)
    rw [countFF_append, countFF_append, countFF_append]
    rw [if_neg hb1, if_neg hb2, if_neg hb3]
    rw [hcS, hH]
    rfl

def c9out : List Nat := (Encode 1 1 1 8 [0]).getD []

/-- Closed witness for C9's theorem at a concrete one-pixel image. -/
theorem encode_marker_structure_witness :
    c9out.take 2 = [255, 216] ∧
    (∃ pre, c9out = pre ++ [255, 217]) ∧
    1 ≤ countFF 247 c9out ∧
    1 ≤ countFF 218 c9out ∧
    (countFF 247 (encodeHeader 1 1 1 8) = 1 → countFF 247 c9out = 1) :=
  encode_marker_structure 1 1 1 8 [0] c9out rfl

def c9big : List Int := List.replicate 131054 0

/-- Counterexample to C9 as frozen: a 2 × 65527 8-bit image.  The height
0xFFF7 puts a second `FF F7` pair into the SOF55 header bytes, so the
output contains at least two occurrences, refuting "exactly one". -/
theorem encode_marker_structure_cex :
    ∃ out, Encode 2 65527 1 8 c9big = some out ∧
      2 ≤ countFF 247 out ∧ countFF 247 out ≠ 1 := by
  refine ⟨[255, 216] ++ encodeHeader 2 65527 1 8 ++ encodeScan 2 65527 1 8 c9big ++
    [255, 217], ?_, ?_, ?_⟩
  · unfold Encode
    rw [if_neg (by
      simp only [c9big, List.length_replicate]
      norm_num)]
  · have hsof : countFF 247 (sof55Bytes (frameInfoOf 2 65527 1 8)) = 2 := by decide
    have h1 := encodeHeader_countF7_ge_sof 2 65527 1 8
    rw [hsof] at h1
    exact le_trans (le_trans (le_trans h1 (countFF_append_ge_right 247 [255, 216] _))
      (countFF_append_ge_left 247 _ _)) (countFF_append_ge_left 247 _ _)
  · have hsof : countFF 247 (sof55Bytes (frameInfoOf 2 65527 1 8)) = 2 := by decide
    have h1 := encodeHeader_countF7_ge_sof 2 65527 1 8
    rw [hsof] at h1
    have h2 : 2 ≤ countFF 247 ([255, 216] ++ encodeHeader 2 65527 1 8 ++
        encodeScan 2 65527 1 8 c9big ++ [255, 217]) :=
      le_trans (le_trans (le_trans h1 (countFF_append_ge_right 247 [255, 216] _))
        (countFF_append_ge_left 247 _ _)) (countFF_append_ge_left 247 _ _)
    omega

end DicomAnon
